import Mathlib

/-!
# Cumulative statistics of `src/cumulative_stats.cpp`

A shallow embedding of the six exported functions of `cumulative_stats.cpp`
(`rcpp_cumsum_init`, `rcpp_cumprod_init`, `rcpp_cummin_init`, `rcpp_cummax_init`,
`rcpp_cummean_init`, `rcpp_batch_cumstats`) and theorems about them.

Modelling conventions.

* `double` is an arbitrary type `α` carrying the operations the source uses
  (`0.0`, `1.0`, `+`, `*`, `/`, the conversion of an `int` to `double`, `<`).
  Theorems that read arithmetic exactly instantiate `α` with `ℚ`;
  theorems that hold for every arithmetic are stated for every `α`.
  `Dbl` adds a NaN to the finite values, with the comparison and the sum of the machine.
* A `NumericVector` is a `List α`; a `NumericMatrix` is a column-major buffer with its
  dimensions and column names.
* `x[i]` and `result[i] = v` are defined only for `i` below the size of the vector.
  An access outside the bounds is the only way a call of the source can go wrong
  (the source has no `stop` and no `throw`); it is recorded as `Fault.outOfBounds`.
* `int n = x.size()` is read for vectors whose length fits an `int`.
-/

namespace CumulativeStats

/-- What can go wrong in a call: an element access outside the bounds of a vector. -/
inductive Fault where
  | outOfBounds (index size : Nat)
  deriving DecidableEq

/-- A computation of the source: a value, or the fault it ran into. -/
abbrev Run (β : Type) : Type := Except Fault β

section Code

variable {α : Type}

/-- Read access `x[i]` of a `NumericVector`. -/
def readAt (x : List α) (i : Nat) : Run α :=
  match x[i]? with
  | some v => Except.ok v
  | none => Except.error (Fault.outOfBounds i x.length)

/-- Write access `result[i] = v` of a `NumericVector`. -/
def writeAt (result : List α) (i : Nat) (v : α) : Run (List α) :=
  if i < result.length then Except.ok (result.set i v)
  else Except.error (Fault.outOfBounds i result.length)

/-- The loop `for(int i = i0; i < i0 + k; i++) body`: `k` iterations are left, the next one
is iteration `i`. The loops of the source are `forLoop body n 0`. -/
def forLoop {σ : Type} (body : Nat → σ → Run σ) : Nat → Nat → σ → Run σ
  | 0, _, s => Except.ok s
  | k + 1, i, s => body i s >>= fun s1 => forLoop body k (i + 1) s1

/-- A `NumericMatrix`: `nrow * ncol` values stored column by column, entry `(i, j)` at
offset `i + nrow * j`, and the column names. -/
structure NumericMatrix (α : Type) where
  nrow : Nat
  ncol : Nat
  data : List α
  colnames : List String

/-- The constructor `NumericMatrix result(n, m)`: an `n` by `m` matrix of zeros. -/
def NumericMatrix.zeros [Zero α] (n m : Nat) : NumericMatrix α :=
  { nrow := n, ncol := m, data := List.replicate (n * m) 0, colnames := [] }

/-- Write access `result(i, j) = v` of a `NumericMatrix`. -/
def NumericMatrix.writeAt (result : NumericMatrix α) (i j : Nat) (v : α) :
    Run (NumericMatrix α) :=
  if i + result.nrow * j < result.data.length then
    Except.ok { result with data := result.data.set (i + result.nrow * j) v }
  else Except.error (Fault.outOfBounds (i + result.nrow * j) result.data.length)

/-- Column `j` of a matrix, top to bottom. -/
def NumericMatrix.column (m : NumericMatrix α) (j : Nat) : List α :=
  (m.data.drop (m.nrow * j)).take m.nrow

variable [Zero α] [One α] [Add α] [Mul α] [Div α] [NatCast α] [LT α]
  [DecidableRel (fun a b : α => a < b)]

/-- Body of the loop of `rcpp_cumsum_init`; the state is `(cumsum, result)`. -/
def cumsumBody (x : List α) (initial_value : α) (i : Nat) (st : α × List α) :
    Run (α × List α) := do
  let xi ← readAt x i
  let cumsum := st.1 + xi
  let result ← writeAt st.2 i (initial_value + cumsum)
  pure (cumsum, result)

/-- `NumericVector rcpp_cumsum_init(NumericVector x, double initial_value)`. -/
def rcpp_cumsum_init (x : List α) (initial_value : α) : Run (List α) := do
  let n := x.length
  let result : List α := List.replicate n 0
  let cumsum : α := 0
  let st ← forLoop (cumsumBody x initial_value) n 0 (cumsum, result)
  pure st.2

/-- Body of the loop of `rcpp_cumprod_init`; the state is `(cumprod, result)`. -/
def cumprodBody (x : List α) (initial_value : α) (i : Nat) (st : α × List α) :
    Run (α × List α) := do
  let xi ← readAt x i
  let cumprod := st.1 * (1 + xi)
  let result ← writeAt st.2 i (initial_value * cumprod)
  pure (cumprod, result)

/-- `NumericVector rcpp_cumprod_init(NumericVector x, double initial_value)`. -/
def rcpp_cumprod_init (x : List α) (initial_value : α) : Run (List α) := do
  let n := x.length
  let result : List α := List.replicate n 0
  let cumprod : α := 1
  let st ← forLoop (cumprodBody x initial_value) n 0 (cumprod, result)
  pure st.2

/-- The update of the running minimum in iteration `i`:
`if(i == 0) cummin = x[i]; else if(x[i] < cummin) cummin = x[i];`. -/
def cumminUpdate (x : List α) (i : Nat) (cummin : α) : Run α :=
  if i = 0 then readAt x i
  else do
    let xi ← readAt x i
    if xi < cummin then readAt x i else pure cummin

/-- The update of the running maximum in iteration `i`:
`if(i == 0) cummax = x[i]; else if(x[i] > cummax) cummax = x[i];`
(the comparison `x[i] > cummax` of two doubles is `cummax < x[i]`). -/
def cummaxUpdate (x : List α) (i : Nat) (cummax : α) : Run α :=
  if i = 0 then readAt x i
  else do
    let xi ← readAt x i
    if cummax < xi then readAt x i else pure cummax

/-- Body of the loop of `rcpp_cummin_init`; the state is `(cummin, result)`. -/
def cumminBody (x : List α) (initial_value : α) (i : Nat) (st : α × List α) :
    Run (α × List α) := do
  let cummin ← cumminUpdate x i st.1
  let result ← writeAt st.2 i (initial_value + cummin)
  pure (cummin, result)

/-- `NumericVector rcpp_cummin_init(NumericVector x, double initial_value)`.
The seed `double cummin = x[0]` is read before the loop, whatever `n` is. -/
def rcpp_cummin_init (x : List α) (initial_value : α) : Run (List α) := do
  let n := x.length
  let result : List α := List.replicate n 0
  let cummin ← readAt x 0
  let st ← forLoop (cumminBody x initial_value) n 0 (cummin, result)
  pure st.2

/-- Body of the loop of `rcpp_cummax_init`; the state is `(cummax, result)`. -/
def cummaxBody (x : List α) (initial_value : α) (i : Nat) (st : α × List α) :
    Run (α × List α) := do
  let cummax ← cummaxUpdate x i st.1
  let result ← writeAt st.2 i (initial_value + cummax)
  pure (cummax, result)

/-- `NumericVector rcpp_cummax_init(NumericVector x, double initial_value)`.
The seed `double cummax = x[0]` is read before the loop, whatever `n` is. -/
def rcpp_cummax_init (x : List α) (initial_value : α) : Run (List α) := do
  let n := x.length
  let result : List α := List.replicate n 0
  let cummax ← readAt x 0
  let st ← forLoop (cummaxBody x initial_value) n 0 (cummax, result)
  pure st.2

/-- Body of the loop of `rcpp_cummean_init`; the state is `(cumsum, result)`.
The divisor `(i + 1)` is an `int` converted to `double`. -/
def cummeanBody (x : List α) (initial_value : α) (i : Nat) (st : α × List α) :
    Run (α × List α) := do
  let xi ← readAt x i
  let cumsum := st.1 + xi
  let result ← writeAt st.2 i (initial_value + cumsum / ((i + 1 : Nat) : α))
  pure (cumsum, result)

/-- `NumericVector rcpp_cummean_init(NumericVector x, double initial_value)`. -/
def rcpp_cummean_init (x : List α) (initial_value : α) : Run (List α) := do
  let n := x.length
  let result : List α := List.replicate n 0
  let cumsum : α := 0
  let st ← forLoop (cummeanBody x initial_value) n 0 (cumsum, result)
  pure st.2

/-- The local variables of `rcpp_batch_cumstats` that the loop changes. -/
structure BatchState (α : Type) where
  cumsum : α
  cumprod : α
  cummin : α
  cummax : α
  result : NumericMatrix α

/-- Body of the loop of `rcpp_batch_cumstats`. -/
def batchBody (x : List α) (initial_value : α) (i : Nat) (st : BatchState α) :
    Run (BatchState α) := do
  -- Cumulative sum
  let xi ← readAt x i
  let cumsum := st.cumsum + xi
  let result ← st.result.writeAt i 0 (initial_value + cumsum)
  -- Cumulative product
  let xi ← readAt x i
  let cumprod := st.cumprod * (1 + xi)
  let result ← result.writeAt i 1 (initial_value * cumprod)
  -- Cumulative minimum
  let cummin ← cumminUpdate x i st.cummin
  let result ← result.writeAt i 2 (initial_value + cummin)
  -- Cumulative maximum
  let cummax ← cummaxUpdate x i st.cummax
  let result ← result.writeAt i 3 (initial_value + cummax)
  -- Cumulative mean
  let result ← result.writeAt i 4 (initial_value + cumsum / ((i + 1 : Nat) : α))
  pure { cumsum := cumsum, cumprod := cumprod, cummin := cummin, cummax := cummax,
         result := result }

/-- `NumericMatrix rcpp_batch_cumstats(NumericVector x, double initial_value)`.
The seeds `double cummin = x[0]` and `double cummax = x[0]` are read before the loop,
whatever `n` is. -/
def rcpp_batch_cumstats (x : List α) (initial_value : α) : Run (NumericMatrix α) := do
  let n := x.length
  let result : NumericMatrix α := NumericMatrix.zeros n 5
  let cumsum : α := 0
  let cumprod : α := 1
  let cummin ← readAt x 0
  let cummax ← readAt x 0
  let st ← forLoop (batchBody x initial_value) n 0
    { cumsum := cumsum, cumprod := cumprod, cummin := cummin, cummax := cummax,
      result := result }
  pure { st.result with
    colnames := ["cum_sum", "cum_prod", "cum_min", "cum_max", "cum_mean"] }

end Code

/-! ## Reference scans and invariants used by the proofs -/

section Reference

variable {α β : Type}

/-- The outputs of a loop that folds `f` over the input and writes `g` of the
accumulator, from index `i` and accumulator `a`, over the remaining input. -/
def scanIdx (f : Nat → β → α → β) (g : Nat → β → α) : Nat → β → List α → List α
  | _, _, [] => []
  | i, a, v :: vs => g i (f i a v) :: scanIdx f g (i + 1) (f i a v) vs

/-- The accumulator after folding `f` over a piece of the input that starts at index `i`. -/
def foldIdx (f : Nat → β → α → β) : Nat → β → List α → β
  | _, a, [] => a
  | i, a, v :: vs => foldIdx f (i + 1) (f i a v) vs

/-- Accumulator step of the sum and of the mean: `cumsum += x[i]`. -/
def sumStep [Add α] (_ : Nat) (cumsum v : α) : α := cumsum + v

/-- Accumulator step of the product: `cumprod *= (1.0 + x[i])`. -/
def prodStep [One α] [Add α] [Mul α] (_ : Nat) (cumprod v : α) : α := cumprod * (1 + v)

/-- Accumulator step of the minimum in iteration `i`. -/
def minStep [LT α] [DecidableRel (fun a b : α => a < b)] (i : Nat) (cummin v : α) : α :=
  if i = 0 then v else if v < cummin then v else cummin

/-- Accumulator step of the maximum in iteration `i`. -/
def maxStep [LT α] [DecidableRel (fun a b : α => a < b)] (i : Nat) (cummax v : α) : α :=
  if i = 0 then v else if cummax < v then v else cummax

/-- The value stored by the sum, the minimum and the maximum: offset plus accumulator. -/
def offsetOut [Add α] (initial_value : α) (_ : Nat) (a : α) : α := initial_value + a

/-- The value stored by the product: seed times accumulator. -/
def scaleOut [Mul α] (initial_value : α) (_ : Nat) (a : α) : α := initial_value * a

/-- The value stored by the mean in iteration `i`. -/
def meanOut [Add α] [Div α] [NatCast α] (initial_value : α) (i : Nat) (cumsum : α) : α :=
  initial_value + cumsum / ((i + 1 : Nat) : α)

/-- Invariant of the single-statistic loops: the result vector keeps the length of `x`. -/
def VecInv (x : List α) (st : α × List α) : Prop := st.2.length = x.length

/-- The matrix after `result(i, j) = v`. -/
def NumericMatrix.setEntry (m : NumericMatrix α) (i j : Nat) (v : α) : NumericMatrix α :=
  { m with data := m.data.set (i + m.nrow * j) v }

/-- Invariant of the batch loop: the result stays an `n` by 5 matrix. -/
def MatInv (x : List α) (st : BatchState α) : Prop :=
  st.result.nrow = x.length ∧ st.result.ncol = 5 ∧ st.result.data.length = x.length * 5

/-- The state after iteration `i` of the batch loop, reading `v = x[i]`. -/
def batchStep [One α] [Add α] [Mul α] [Div α] [NatCast α] [LT α]
    [DecidableRel (fun a b : α => a < b)] (c : α) (i : Nat) (st : BatchState α) (v : α) :
    BatchState α :=
  { cumsum := sumStep i st.cumsum v
    cumprod := prodStep i st.cumprod v
    cummin := minStep i st.cummin v
    cummax := maxStep i st.cummax v
    result := ((((st.result.setEntry i 0 (offsetOut c i (sumStep i st.cumsum v))).setEntry i 1
      (scaleOut c i (prodStep i st.cumprod v))).setEntry i 2
      (offsetOut c i (minStep i st.cummin v))).setEntry i 3
      (offsetOut c i (maxStep i st.cummax v))).setEntry i 4
      (meanOut c i (sumStep i st.cumsum v)) }

/-- The vector `r` is the vector `r0` with `c` added at every index; both have length `n`. -/
def OffsetBy (n : Nat) (c : ℚ) (r r0 : List ℚ) : Prop :=
  r.length = n ∧ r0.length = n ∧
  ∀ i, i < n → ∃ u w, r[i]? = some u ∧ r0[i]? = some w ∧ u = w + c

/-- The vector `r` is `c` times the vector `r1` at every index; both have length `n`. -/
def ScaledBy (n : Nat) (c : ℚ) (r r1 : List ℚ) : Prop :=
  r.length = n ∧ r1.length = n ∧
  ∀ i, i < n → ∃ u w, r[i]? = some u ∧ r1[i]? = some w ∧ u = c * w

/-- A double that is either NaN or a finite value (kept exact, as a rational). -/
inductive Dbl where
  | nan
  | val (q : ℚ)
  deriving DecidableEq

/-- The comparison `a < b` of two doubles as the machine evaluates it: false as soon as
one side is NaN. -/
def Dbl.blt : Dbl → Dbl → Bool
  | Dbl.val p, Dbl.val q => decide (p < q)
  | _, _ => false

/-- The sum of two doubles: NaN as soon as one side is NaN. -/
def Dbl.add : Dbl → Dbl → Dbl
  | Dbl.val p, Dbl.val q => Dbl.val (p + q)
  | _, _ => Dbl.nan

instance Dbl.instLT : LT Dbl := ⟨fun a b => Dbl.blt a b = true⟩

instance Dbl.instDecidableLT : DecidableRel (fun a b : Dbl => a < b) :=
  fun a b => inferInstanceAs (Decidable (Dbl.blt a b = true))

instance Dbl.instAdd : Add Dbl := ⟨Dbl.add⟩

instance Dbl.instZero : Zero Dbl := ⟨Dbl.val 0⟩

end Reference

/-! ## The loop rule and the closed forms of the six functions -/

section Lemmas

variable {α β : Type}

theorem readAt_eq_ok {x : List α} {i : Nat} {v : α} (h : x[i]? = some v) :
    readAt x i = Except.ok v := by
  simp [readAt, h]

theorem readAt_nil (i : Nat) : readAt ([] : List α) i = Except.error (Fault.outOfBounds i 0) := by
  simp [readAt]

theorem writeAt_eq_ok {r : List α} {i : Nat} (v : α) (h : i < r.length) :
    writeAt r i v = Except.ok (r.set i v) := by
  simp [writeAt, h]

theorem take_succ_set {l : List α} {i : Nat} (v : α) (h : i < l.length) :
    (l.set i v).take (i + 1) = l.take i ++ [v] := by
  have hi : min i l.length = i := Nat.min_eq_left (Nat.le_of_lt h)
  rw [List.set_eq_take_append_cons_drop, if_pos h, List.take_append_eq_append_take]
  simp [hi]

theorem length_scanIdx (f : Nat → β → α → β) (g : Nat → β → α) (l : List α) :
    ∀ (i : Nat) (a : β), (scanIdx f g i a l).length = l.length := by
  induction l with
  | nil => intro i a; rfl
  | cons v vs ih => intro i a; simp [scanIdx, ih]

theorem getElem?_scanIdx (f : Nat → β → α → β) (g : Nat → β → α) (l : List α) :
    ∀ (i : Nat) (a : β) (j : Nat), j < l.length →
      (scanIdx f g i a l)[j]? = some (g (i + j) (foldIdx f i a (l.take (j + 1)))) := by
  induction l with
  | nil => intro i a j hj; simp at hj
  | cons v vs ih =>
    intro i a j hj
    cases j with
    | zero => simp [scanIdx, foldIdx]
    | succ j =>
      have hj1 : j < vs.length := by simpa using hj
      simp only [scanIdx, List.getElem?_cons_succ, List.take_succ_cons, foldIdx]
      rw [ih (i + 1) (f i a v) j hj1]
      congr 2
      omega

/-- Loop rule. If every iteration within bounds keeps the invariant, folds `f` into the
accumulator `acc` and stores `g` of the new accumulator at position `i` of the output
`out`, then the loop over the rest `suf` of the input succeeds and appends the scan of
`suf` to the first `pre.length` outputs. -/
theorem forLoop_scan {σ : Type} (x : List α) (body : Nat → σ → Run σ)
    (Inv : σ → Prop) (acc : σ → β) (out : σ → List α)
    (f : Nat → β → α → β) (g : Nat → β → α)
    (hlen : ∀ s, Inv s → (out s).length = x.length)
    (hbody : ∀ (i : Nat) (s : σ) (v : α), x[i]? = some v → Inv s →
      ∃ s1, body i s = Except.ok s1 ∧ Inv s1 ∧ acc s1 = f i (acc s) v ∧
        out s1 = (out s).set i (g i (f i (acc s) v))) :
    ∀ (suf pre : List α) (s : σ), x = pre ++ suf → Inv s →
      ∃ s1, forLoop body suf.length pre.length s = Except.ok s1 ∧ Inv s1 ∧
        out s1 = (out s).take pre.length ++ scanIdx f g pre.length (acc s) suf := by
  intro suf
  induction suf with
  | nil =>
    intro pre s hx hs
    refine ⟨s, rfl, hs, ?_⟩
    have : pre.length = (out s).length := by simp [hlen s hs, hx]
    simp [scanIdx, this]
  | cons v vs ih =>
    intro pre s hx hs
    have hv : x[pre.length]? = some v := by
      rw [hx, List.getElem?_append_right (Nat.le_refl _)]
      simp
    have hlt : pre.length < (out s).length := by simp [hlen s hs, hx]
    obtain ⟨s1, hb, hs1, hacc, hout⟩ := hbody pre.length s v hv hs
    obtain ⟨s2, h2, hs2, hout2⟩ := ih (pre ++ [v]) s1 (by simp [hx]) hs1
    refine ⟨s2, ?_, hs2, ?_⟩
    · simp only [List.length_append, List.length_singleton] at h2
      simp only [List.length_cons, forLoop, hb, bind, Except.bind, h2]
    · simp only [List.length_append, List.length_singleton] at hout2
      rw [hout2, hout, hacc, take_succ_set _ hlt]
      simp [scanIdx]

/-- The loop rule for a whole run: from index `0` over all of `x`. -/
theorem forLoop_scan_all {σ : Type} (x : List α) (body : Nat → σ → Run σ)
    (Inv : σ → Prop) (acc : σ → β) (out : σ → List α)
    (f : Nat → β → α → β) (g : Nat → β → α)
    (hlen : ∀ s, Inv s → (out s).length = x.length)
    (hbody : ∀ (i : Nat) (s : σ) (v : α), x[i]? = some v → Inv s →
      ∃ s1, body i s = Except.ok s1 ∧ Inv s1 ∧ acc s1 = f i (acc s) v ∧
        out s1 = (out s).set i (g i (f i (acc s) v)))
    (s : σ) (hs : Inv s) :
    ∃ s1, forLoop body x.length 0 s = Except.ok s1 ∧ Inv s1 ∧
      out s1 = scanIdx f g 0 (acc s) x := by
  obtain ⟨s1, h1, hs1, ho⟩ := forLoop_scan x body Inv acc out f g hlen hbody x [] s rfl hs
  exact ⟨s1, h1, hs1, by simpa using ho⟩

theorem cumminUpdate_eq_ok [LT α] [DecidableRel (fun a b : α => a < b)]
    {x : List α} {i : Nat} {v : α} (cummin : α)
    (h : x[i]? = some v) : cumminUpdate x i cummin = Except.ok (minStep i cummin v) := by
  unfold cumminUpdate minStep
  by_cases hi : i = 0
  · simp [hi, readAt_eq_ok (hi ▸ h)]
  · by_cases hlt : v < cummin <;>
      simp [hi, hlt, readAt_eq_ok h, bind, Except.bind, pure, Except.pure]

theorem cummaxUpdate_eq_ok [LT α] [DecidableRel (fun a b : α => a < b)]
    {x : List α} {i : Nat} {v : α} (cummax : α)
    (h : x[i]? = some v) : cummaxUpdate x i cummax = Except.ok (maxStep i cummax v) := by
  unfold cummaxUpdate maxStep
  by_cases hi : i = 0
  · simp [hi, readAt_eq_ok (hi ▸ h)]
  · by_cases hlt : cummax < v <;>
      simp [hi, hlt, readAt_eq_ok h, bind, Except.bind, pure, Except.pure]

theorem lt_of_getElem?_eq_some {x : List α} {i : Nat} {v : α} (h : x[i]? = some v) :
    i < x.length := (List.getElem?_eq_some_iff.1 h).1

/-- The single-statistic loop rule: a body that folds `f` and stores `g` makes the
function return the scan of the input. -/
theorem single_scan (x : List α) (body : Nat → α × List α → Run (α × List α))
    (f : Nat → α → α → α) (g : Nat → α → α)
    (hbody : ∀ (i : Nat) (a : α) (r : List α) (v : α), x[i]? = some v → i < r.length →
      body i (a, r) = Except.ok (f i a v, r.set i (g i (f i a v))))
    (a : α) (r : List α) (hr : r.length = x.length) :
    ∃ a1, forLoop body x.length 0 (a, r) = Except.ok (a1, scanIdx f g 0 a x) := by
  obtain ⟨s1, h1, -, ho⟩ := forLoop_scan_all x body (VecInv x) Prod.fst Prod.snd f g
    (fun _ hs => hs)
    (by
      intro i s v hv hs
      have hlt : i < s.2.length := by
        rw [hs]; exact lt_of_getElem?_eq_some hv
      refine ⟨(f i s.1 v, s.2.set i (g i (f i s.1 v))), hbody i s.1 s.2 v hv hlt, ?_, rfl, rfl⟩
      simpa [VecInv] using hs)
    (a, r) hr
  refine ⟨s1.1, ?_⟩
  rw [h1, ← ho]

theorem cumsum_eq [Zero α] [Add α] (x : List α) (c : α) :
    rcpp_cumsum_init x c = Except.ok (scanIdx sumStep (offsetOut c) 0 0 x) := by
  obtain ⟨a1, h1⟩ := single_scan x (cumsumBody x c) sumStep (offsetOut c)
    (by
      intro i a r v hv hlt
      simp [cumsumBody, readAt_eq_ok hv, writeAt_eq_ok _ hlt, bind, Except.bind, pure,
        Except.pure, sumStep, offsetOut])
    0 (List.replicate x.length 0) (by simp)
  simp only [rcpp_cumsum_init, h1, bind, Except.bind, pure, Except.pure]

theorem cumprod_eq [Zero α] [One α] [Add α] [Mul α] (x : List α) (c : α) :
    rcpp_cumprod_init x c = Except.ok (scanIdx prodStep (scaleOut c) 0 1 x) := by
  obtain ⟨a1, h1⟩ := single_scan x (cumprodBody x c) prodStep (scaleOut c)
    (by
      intro i a r v hv hlt
      simp [cumprodBody, readAt_eq_ok hv, writeAt_eq_ok _ hlt, bind, Except.bind, pure,
        Except.pure, prodStep, scaleOut])
    1 (List.replicate x.length 0) (by simp)
  simp only [rcpp_cumprod_init, h1, bind, Except.bind, pure, Except.pure]

theorem cummean_eq [Zero α] [Add α] [Div α] [NatCast α] (x : List α) (c : α) :
    rcpp_cummean_init x c = Except.ok (scanIdx sumStep (meanOut c) 0 0 x) := by
  obtain ⟨a1, h1⟩ := single_scan x (cummeanBody x c) sumStep (meanOut c)
    (by
      intro i a r v hv hlt
      simp [cummeanBody, readAt_eq_ok hv, writeAt_eq_ok _ hlt, bind, Except.bind, pure,
        Except.pure, sumStep, meanOut])
    0 (List.replicate x.length 0) (by simp)
  simp only [rcpp_cummean_init, h1, bind, Except.bind, pure, Except.pure]

theorem cummin_eq [Zero α] [Add α] [LT α] [DecidableRel (fun a b : α => a < b)]
    (x0 : α) (xs : List α) (c : α) :
    rcpp_cummin_init (x0 :: xs) c
      = Except.ok (scanIdx minStep (offsetOut c) 0 x0 (x0 :: xs)) := by
  obtain ⟨a1, h1⟩ := single_scan (x0 :: xs) (cumminBody (x0 :: xs) c) minStep (offsetOut c)
    (by
      intro i a r v hv hlt
      simp [cumminBody, cumminUpdate_eq_ok a hv, writeAt_eq_ok _ hlt, bind, Except.bind, pure,
        Except.pure, offsetOut])
    x0 (List.replicate (x0 :: xs).length 0) (by simp)
  have h0 : readAt (x0 :: xs) 0 = Except.ok x0 := readAt_eq_ok (by simp)
  simp only [rcpp_cummin_init, h0, h1, bind, Except.bind, pure, Except.pure]

theorem cummax_eq [Zero α] [Add α] [LT α] [DecidableRel (fun a b : α => a < b)]
    (x0 : α) (xs : List α) (c : α) :
    rcpp_cummax_init (x0 :: xs) c
      = Except.ok (scanIdx maxStep (offsetOut c) 0 x0 (x0 :: xs)) := by
  obtain ⟨a1, h1⟩ := single_scan (x0 :: xs) (cummaxBody (x0 :: xs) c) maxStep (offsetOut c)
    (by
      intro i a r v hv hlt
      simp [cummaxBody, cummaxUpdate_eq_ok a hv, writeAt_eq_ok _ hlt, bind, Except.bind, pure,
        Except.pure, offsetOut])
    x0 (List.replicate (x0 :: xs).length 0) (by simp)
  have h0 : readAt (x0 :: xs) 0 = Except.ok x0 := readAt_eq_ok (by simp)
  simp only [rcpp_cummax_init, h0, h1, bind, Except.bind, pure, Except.pure]

theorem cummin_nil [Zero α] [Add α] [LT α] [DecidableRel (fun a b : α => a < b)] (c : α) :
    rcpp_cummin_init ([] : List α) c = Except.error (Fault.outOfBounds 0 0) := by
  simp [rcpp_cummin_init, readAt_nil, bind, Except.bind]

theorem NumericMatrix.getElem?_column (m : NumericMatrix α) (j k : Nat) :
    (m.column j)[k]? = if k < m.nrow then m.data[m.nrow * j + k]? else none := by
  simp [NumericMatrix.column, List.getElem?_take, List.getElem?_drop]

theorem NumericMatrix.length_column (m : NumericMatrix α) (j : Nat)
    (hj : m.nrow * (j + 1) ≤ m.data.length) : (m.column j).length = m.nrow := by
  have h : m.nrow * (j + 1) = m.nrow * j + m.nrow := Nat.mul_succ _ _
  simp only [NumericMatrix.column, List.length_take, List.length_drop]
  omega

theorem NumericMatrix.writeEntry_eq_ok (m : NumericMatrix α) (i j : Nat) (v : α)
    (hi : i < m.nrow) (hj : m.nrow * (j + 1) ≤ m.data.length) :
    m.writeAt i j v = Except.ok (m.setEntry i j v) := by
  have h : m.nrow * (j + 1) = m.nrow * j + m.nrow := Nat.mul_succ _ _
  have hlt : i + m.nrow * j < m.data.length := by omega
  simp [NumericMatrix.writeAt, NumericMatrix.setEntry, hlt]

theorem NumericMatrix.column_setEntry_same (m : NumericMatrix α) (i j : Nat) (v : α)
    (hi : i < m.nrow) (hj : m.nrow * (j + 1) ≤ m.data.length) :
    (m.setEntry i j v).column j = (m.column j).set i v := by
  have h : m.nrow * (j + 1) = m.nrow * j + m.nrow := Nat.mul_succ _ _
  have hlen := m.length_column j hj
  apply List.ext_getElem?
  intro k
  rw [NumericMatrix.getElem?_column, List.getElem?_set, NumericMatrix.getElem?_column]
  simp only [NumericMatrix.setEntry, List.getElem?_set, hlen]
  by_cases hk : k < m.nrow
  · by_cases hik : i = k
    · subst hik
      have h1 : i + m.nrow * j < m.data.length := by omega
      simp [hk, h1, Nat.add_comm]
    · have h1 : ¬ i + m.nrow * j = m.nrow * j + k := by omega
      simp [hk, hik, h1]
  · have hik : ¬ i = k := by omega
    simp [hk, hik]

theorem NumericMatrix.column_setEntry_other (m : NumericMatrix α) (i j j1 : Nat) (v : α)
    (hi : i < m.nrow) (hne : j1 ≠ j) :
    (m.setEntry i j v).column j1 = m.column j1 := by
  apply List.ext_getElem?
  intro k
  rw [NumericMatrix.getElem?_column, NumericMatrix.getElem?_column]
  simp only [NumericMatrix.setEntry, List.getElem?_set]
  by_cases hk : k < m.nrow
  · have h1 : ¬ i + m.nrow * j = m.nrow * j1 + k := by
      rcases Nat.lt_or_gt_of_ne hne with hlt | hgt
      · have h2 : m.nrow * (j1 + 1) ≤ m.nrow * j := Nat.mul_le_mul_left _ hlt
        have h3 : m.nrow * (j1 + 1) = m.nrow * j1 + m.nrow := Nat.mul_succ _ _
        omega
      · have h2 : m.nrow * (j + 1) ≤ m.nrow * j1 := Nat.mul_le_mul_left _ hgt
        have h3 : m.nrow * (j + 1) = m.nrow * j + m.nrow := Nat.mul_succ _ _
        omega
    simp [hk, h1]
  · simp [hk]

theorem batchBody_eq_ok [One α] [Add α] [Mul α] [Div α] [NatCast α] [LT α]
    [DecidableRel (fun a b : α => a < b)] (x : List α) (c : α) (i : Nat)
    (st : BatchState α) (v : α) (hv : x[i]? = some v) (hs : MatInv x st) :
    batchBody x c i st = Except.ok (batchStep c i st v) := by
  obtain ⟨hn, -, hd⟩ := hs
  have hi : i < st.result.nrow := by rw [hn]; exact lt_of_getElem?_eq_some hv
  have hw : ∀ (m : NumericMatrix α) (j : Nat) (w : α), m.nrow = st.result.nrow →
      m.data.length = st.result.data.length → j < 5 →
      m.writeAt i j w = Except.ok (m.setEntry i j w) := by
    intro m j w h1 h2 hj
    apply NumericMatrix.writeEntry_eq_ok
    · rw [h1]; exact hi
    · rw [h1, h2, hd, hn]
      exact Nat.mul_le_mul_left _ hj
  simp only [batchBody, readAt_eq_ok hv, cumminUpdate_eq_ok _ hv, cummaxUpdate_eq_ok _ hv,
    bind, Except.bind, pure, Except.pure]
  rw [hw st.result 0 _ rfl rfl (by omega)]
  simp only []
  rw [hw _ 1 _ ?_ ?_ (by omega)]
  simp only []
  rw [hw _ 2 _ ?_ ?_ (by omega)]
  simp only []
  rw [hw _ 3 _ ?_ ?_ (by omega)]
  simp only []
  rw [hw _ 4 _ ?_ ?_ (by omega)]
  · rfl
  all_goals simp [NumericMatrix.setEntry]

@[simp] theorem NumericMatrix.nrow_setEntry (m : NumericMatrix α) (i j : Nat) (v : α) :
    (m.setEntry i j v).nrow = m.nrow := rfl

@[simp] theorem NumericMatrix.ncol_setEntry (m : NumericMatrix α) (i j : Nat) (v : α) :
    (m.setEntry i j v).ncol = m.ncol := rfl

@[simp] theorem NumericMatrix.length_data_setEntry (m : NumericMatrix α) (i j : Nat) (v : α) :
    (m.setEntry i j v).data.length = m.data.length := by
  simp [NumericMatrix.setEntry]

theorem MatInv.length_column_eq {x : List α} {st : BatchState α} (hs : MatInv x st) (j : Nat)
    (hj : j < 5) : (st.result.column j).length = x.length := by
  obtain ⟨hn, -, hd⟩ := hs
  rw [NumericMatrix.length_column _ _ (by rw [hn, hd]; exact Nat.mul_le_mul_left _ hj), hn]

section BatchSteps

variable [One α] [Add α] [Mul α] [Div α] [NatCast α] [LT α]
  [DecidableRel (fun a b : α => a < b)]

theorem MatInv.batchStep {x : List α} {st : BatchState α} (hs : MatInv x st) (c : α)
    (i : Nat) (v : α) : MatInv x (batchStep c i st v) := by
  obtain ⟨hn, hc, hd⟩ := hs
  exact ⟨by simp [CumulativeStats.batchStep, hn], by simp [CumulativeStats.batchStep, hc],
    by simp [CumulativeStats.batchStep, hd]⟩

/-- The columns of the result after one iteration of the batch loop. -/
theorem column_batchStep {x : List α} {st : BatchState α} (hs : MatInv x st) (c : α)
    (i : Nat) (v : α) (hi : i < x.length) :
    (batchStep c i st v).result.column 0
        = (st.result.column 0).set i (offsetOut c i (sumStep i st.cumsum v)) ∧
    (batchStep c i st v).result.column 1
        = (st.result.column 1).set i (scaleOut c i (prodStep i st.cumprod v)) ∧
    (batchStep c i st v).result.column 2
        = (st.result.column 2).set i (offsetOut c i (minStep i st.cummin v)) ∧
    (batchStep c i st v).result.column 3
        = (st.result.column 3).set i (offsetOut c i (maxStep i st.cummax v)) ∧
    (batchStep c i st v).result.column 4
        = (st.result.column 4).set i (meanOut c i (sumStep i st.cumsum v)) := by
  obtain ⟨hn, -, hd⟩ := hs
  have hi1 : i < st.result.nrow := by rw [hn]; exact hi
  have hsame : ∀ (m : NumericMatrix α) (j : Nat) (w : α), m.nrow = st.result.nrow →
      m.data.length = st.result.data.length → j < 5 →
      (m.setEntry i j w).column j = (m.column j).set i w := by
    intro m j w h1 h2 hj
    apply NumericMatrix.column_setEntry_same
    · rw [h1]; exact hi1
    · rw [h1, h2, hd, hn]
      exact Nat.mul_le_mul_left _ hj
  have hother : ∀ (m : NumericMatrix α) (j j1 : Nat) (w : α), m.nrow = st.result.nrow →
      j1 ≠ j → (m.setEntry i j w).column j1 = m.column j1 := by
    intro m j j1 w h1 hne
    exact NumericMatrix.column_setEntry_other m i j j1 w (by rw [h1]; exact hi1) hne
  refine ⟨?_, ?_, ?_, ?_, ?_⟩ <;> simp only [batchStep]
  · rw [hother _ 4 0 _ ?_ (by decide), hother _ 3 0 _ ?_ (by decide),
      hother _ 2 0 _ ?_ (by decide), hother _ 1 0 _ ?_ (by decide),
      hsame _ 0 _ ?_ ?_ (by decide)]
    all_goals simp
  · rw [hother _ 4 1 _ ?_ (by decide), hother _ 3 1 _ ?_ (by decide),
      hother _ 2 1 _ ?_ (by decide), hsame _ 1 _ ?_ ?_ (by decide),
      hother _ 0 1 _ ?_ (by decide)]
    all_goals simp
  · rw [hother _ 4 2 _ ?_ (by decide), hother _ 3 2 _ ?_ (by decide),
      hsame _ 2 _ ?_ ?_ (by decide), hother _ 1 2 _ ?_ (by decide),
      hother _ 0 2 _ ?_ (by decide)]
    all_goals simp
  · rw [hother _ 4 3 _ ?_ (by decide), hsame _ 3 _ ?_ ?_ (by decide),
      hother _ 2 3 _ ?_ (by decide), hother _ 1 3 _ ?_ (by decide),
      hother _ 0 3 _ ?_ (by decide)]
    all_goals simp
  · rw [hsame _ 4 _ ?_ ?_ (by decide), hother _ 3 4 _ ?_ (by decide),
      hother _ 2 4 _ ?_ (by decide), hother _ 1 4 _ ?_ (by decide),
      hother _ 0 4 _ ?_ (by decide)]
    all_goals simp

/-- The batch loop rule for one column: column `j` of the final matrix is the scan of the
input by the step `f` of the accumulator `acc` and the stored value `g`. -/
theorem batch_column_scan (x : List α) (c : α) (j : Nat) (hj : j < 5)
    (acc : BatchState α → α) (f : Nat → α → α → α) (g : Nat → α → α)
    (hacc : ∀ (i : Nat) (st : BatchState α) (v : α),
      acc (batchStep c i st v) = f i (acc st) v)
    (hcol : ∀ (i : Nat) (st : BatchState α) (v : α), MatInv x st → i < x.length →
      (batchStep c i st v).result.column j = (st.result.column j).set i (g i (f i (acc st) v)))
    (st : BatchState α) (hs : MatInv x st) :
    ∃ s1, forLoop (batchBody x c) x.length 0 st = Except.ok s1 ∧ MatInv x s1 ∧
      s1.result.column j = scanIdx f g 0 (acc st) x :=
  forLoop_scan_all x (batchBody x c) (MatInv x) acc (fun s => s.result.column j) f g
    (fun _ h => h.length_column_eq j hj)
    (fun i s v hv h => ⟨batchStep c i s v, batchBody_eq_ok x c i s v hv h, h.batchStep c i v,
      hacc i s v, hcol i s v h (lt_of_getElem?_eq_some hv)⟩)
    st hs

/-- Closed form of `rcpp_batch_cumstats` on a non-empty input: an `n` by 5 matrix whose
columns are the scans of the five statistics. -/
theorem batch_eq [Zero α] (x0 : α) (xs : List α) (c : α) :
    ∃ m, rcpp_batch_cumstats (x0 :: xs) c = Except.ok m ∧
      m.nrow = (x0 :: xs).length ∧ m.ncol = 5 ∧ m.data.length = (x0 :: xs).length * 5 ∧
      m.colnames = ["cum_sum", "cum_prod", "cum_min", "cum_max", "cum_mean"] ∧
      m.column 0 = scanIdx sumStep (offsetOut c) 0 0 (x0 :: xs) ∧
      m.column 1 = scanIdx prodStep (scaleOut c) 0 1 (x0 :: xs) ∧
      m.column 2 = scanIdx minStep (offsetOut c) 0 x0 (x0 :: xs) ∧
      m.column 3 = scanIdx maxStep (offsetOut c) 0 x0 (x0 :: xs) ∧
      m.column 4 = scanIdx sumStep (meanOut c) 0 0 (x0 :: xs) := by
  let s0 : BatchState α :=
    { cumsum := 0, cumprod := 1, cummin := x0, cummax := x0,
      result := NumericMatrix.zeros (x0 :: xs).length 5 }
  have hs0 : MatInv (x0 :: xs) s0 := ⟨rfl, rfl, by simp [s0, NumericMatrix.zeros]⟩
  obtain ⟨s1, h1, hs1, c0⟩ := batch_column_scan (x0 :: xs) c 0 (by decide)
    (fun s => s.cumsum) sumStep (offsetOut c) (fun _ _ _ => rfl)
    (fun i st v h hi => (column_batchStep h c i v hi).1) s0 hs0
  obtain ⟨s2, h2, -, c1⟩ := batch_column_scan (x0 :: xs) c 1 (by decide)
    (fun s => s.cumprod) prodStep (scaleOut c) (fun _ _ _ => rfl)
    (fun i st v h hi => (column_batchStep h c i v hi).2.1) s0 hs0
  obtain ⟨s3, h3, -, c2⟩ := batch_column_scan (x0 :: xs) c 2 (by decide)
    (fun s => s.cummin) minStep (offsetOut c) (fun _ _ _ => rfl)
    (fun i st v h hi => (column_batchStep h c i v hi).2.2.1) s0 hs0
  obtain ⟨s4, h4, -, c3⟩ := batch_column_scan (x0 :: xs) c 3 (by decide)
    (fun s => s.cummax) maxStep (offsetOut c) (fun _ _ _ => rfl)
    (fun i st v h hi => (column_batchStep h c i v hi).2.2.2.1) s0 hs0
  obtain ⟨s5, h5, -, c4⟩ := batch_column_scan (x0 :: xs) c 4 (by decide)
    (fun s => s.cumsum) sumStep (meanOut c) (fun _ _ _ => rfl)
    (fun i st v h hi => (column_batchStep h c i v hi).2.2.2.2) s0 hs0
  have e2 : s2 = s1 := by rw [h1] at h2; exact (Except.ok.inj h2).symm
  have e3 : s3 = s1 := by rw [h1] at h3; exact (Except.ok.inj h3).symm
  have e4 : s4 = s1 := by rw [h1] at h4; exact (Except.ok.inj h4).symm
  have e5 : s5 = s1 := by rw [h1] at h5; exact (Except.ok.inj h5).symm
  rw [e2] at c1
  rw [e3] at c2
  rw [e4] at c3
  rw [e5] at c4
  have h0 : readAt (x0 :: xs) 0 = Except.ok x0 := readAt_eq_ok (by simp)
  obtain ⟨hn, hc, hd⟩ := hs1
  refine ⟨{ s1.result with
    colnames := ["cum_sum", "cum_prod", "cum_min", "cum_max", "cum_mean"] }, ?_,
    hn, hc, hd, rfl, c0, c1, c2, c3, c4⟩
  simp only [rcpp_batch_cumstats, h0, bind, Except.bind, pure, Except.pure]
  rw [show forLoop (batchBody (x0 :: xs) c) (x0 :: xs).length 0
    { cumsum := 0, cumprod := 1, cummin := x0, cummax := x0,
      result := NumericMatrix.zeros (x0 :: xs).length 5 } = Except.ok s1 from h1]

theorem batch_nil [Zero α] (c : α) :
    rcpp_batch_cumstats ([] : List α) c = Except.error (Fault.outOfBounds 0 0) := by
  simp [rcpp_batch_cumstats, readAt_nil, bind, Except.bind]

end BatchSteps

theorem scanIdx_spec (f : Nat → α → α → α) (g : Nat → α → α) (a : α) (x : List α) :
    (scanIdx f g 0 a x).length = x.length ∧
    ∀ i, i < x.length →
      (scanIdx f g 0 a x)[i]? = some (g i (foldIdx f 0 a (x.take (i + 1)))) := by
  refine ⟨length_scanIdx f g x 0 a, ?_⟩
  intro i hi
  simpa using getElem?_scanIdx f g x 0 a i hi

theorem foldIdx_sumStep (l : List ℚ) : ∀ (i : Nat) (a : ℚ),
    foldIdx sumStep i a l = a + l.sum := by
  induction l with
  | nil => intro i a; simp [foldIdx]
  | cons v vs ih => intro i a; simp [foldIdx, ih, sumStep, add_assoc]

theorem foldIdx_prodStep (l : List ℚ) : ∀ (i : Nat) (a : ℚ),
    foldIdx prodStep i a l = a * (l.map (fun v => 1 + v)).prod := by
  induction l with
  | nil => intro i a; simp [foldIdx]
  | cons v vs ih => intro i a; simp [foldIdx, ih, prodStep, mul_assoc]

theorem foldIdx_minStep_succ (l : List ℚ) : ∀ (i : Nat) (a : ℚ),
    foldIdx minStep (i + 1) a l ∈ a :: l ∧ ∀ v ∈ a :: l, foldIdx minStep (i + 1) a l ≤ v := by
  induction l with
  | nil => intro i a; simp [foldIdx]
  | cons w ws ih =>
    intro i a
    obtain ⟨hm, hle⟩ := ih (i + 1) (minStep (i + 1) a w)
    simp only [foldIdx]
    have hstep : minStep (i + 1) a w = if w < a then w else a := by simp [minStep]
    refine ⟨?_, ?_⟩
    · rcases List.mem_cons.1 hm with h | h
      · rw [h, hstep]
        split <;> simp
      · simp [h]
    · intro v hv
      have h1 := hle (minStep (i + 1) a w) (List.mem_cons_self _ _)
      have h2 : minStep (i + 1) a w ≤ a ∧ minStep (i + 1) a w ≤ w := by
        rw [hstep]
        split
        · next h => exact ⟨le_of_lt h, le_refl _⟩
        · next h => exact ⟨le_refl _, not_lt.1 h⟩
      rcases List.mem_cons.1 hv with h | h
      · rw [h]; exact le_trans h1 h2.1
      · rcases List.mem_cons.1 h with h | h
        · rw [h]; exact le_trans h1 h2.2
        · exact hle v (List.mem_cons_of_mem _ h)

theorem foldIdx_maxStep_succ (l : List ℚ) : ∀ (i : Nat) (a : ℚ),
    foldIdx maxStep (i + 1) a l ∈ a :: l ∧ ∀ v ∈ a :: l, v ≤ foldIdx maxStep (i + 1) a l := by
  induction l with
  | nil => intro i a; simp [foldIdx]
  | cons w ws ih =>
    intro i a
    obtain ⟨hm, hle⟩ := ih (i + 1) (maxStep (i + 1) a w)
    simp only [foldIdx]
    have hstep : maxStep (i + 1) a w = if a < w then w else a := by simp [maxStep]
    refine ⟨?_, ?_⟩
    · rcases List.mem_cons.1 hm with h | h
      · rw [h, hstep]
        split <;> simp
      · simp [h]
    · intro v hv
      have h1 := hle (maxStep (i + 1) a w) (List.mem_cons_self _ _)
      have h2 : a ≤ maxStep (i + 1) a w ∧ w ≤ maxStep (i + 1) a w := by
        rw [hstep]
        split
        · next h => exact ⟨le_of_lt h, le_refl _⟩
        · next h => exact ⟨le_refl _, not_lt.1 h⟩
      rcases List.mem_cons.1 hv with h | h
      · rw [h]; exact le_trans h2.1 h1
      · rcases List.mem_cons.1 h with h | h
        · rw [h]; exact le_trans h2.2 h1
        · exact hle v (List.mem_cons_of_mem _ h)

/-- The running minimum over a non-empty prefix is its least element. -/
theorem foldIdx_minStep_least (x0 : ℚ) (xs : List ℚ) (a : ℚ) (i : Nat) :
    foldIdx minStep 0 a ((x0 :: xs).take (i + 1)) ∈ (x0 :: xs).take (i + 1) ∧
    ∀ v ∈ (x0 :: xs).take (i + 1), foldIdx minStep 0 a ((x0 :: xs).take (i + 1)) ≤ v := by
  have h : foldIdx minStep 0 a ((x0 :: xs).take (i + 1))
      = foldIdx minStep (0 + 1) x0 (xs.take i) := by
    simp [foldIdx, minStep]
  rw [h]
  simpa using foldIdx_minStep_succ (xs.take i) 0 x0

/-- The running maximum over a non-empty prefix is its greatest element. -/
theorem foldIdx_maxStep_greatest (x0 : ℚ) (xs : List ℚ) (a : ℚ) (i : Nat) :
    foldIdx maxStep 0 a ((x0 :: xs).take (i + 1)) ∈ (x0 :: xs).take (i + 1) ∧
    ∀ v ∈ (x0 :: xs).take (i + 1), v ≤ foldIdx maxStep 0 a ((x0 :: xs).take (i + 1)) := by
  have h : foldIdx maxStep 0 a ((x0 :: xs).take (i + 1))
      = foldIdx maxStep (0 + 1) x0 (xs.take i) := by
    simp [foldIdx, maxStep]
  rw [h]
  simpa using foldIdx_maxStep_succ (xs.take i) 0 x0

theorem mem_take_of_getElem? {x : List α} {i j : Nat} {v : α} (hj : j ≤ i)
    (h : x[j]? = some v) : v ∈ x.take (i + 1) := by
  rw [List.mem_iff_getElem?]
  exact ⟨j, by rw [List.getElem?_take_of_lt (by omega)]; exact h⟩

/-- Two runs of a scan that differ in the stored value only are related index by index
when the stored values are. -/
theorem scanIdx_pointwise {α : Type} (f : Nat → α → α → α) (g g0 : Nat → α → α) (a : α)
    (x : List α) (rel : α → α → Prop) (h : ∀ i s, rel (g i s) (g0 i s)) :
    (scanIdx f g 0 a x).length = x.length ∧ (scanIdx f g0 0 a x).length = x.length ∧
    ∀ i, i < x.length → ∃ u w, (scanIdx f g 0 a x)[i]? = some u ∧
      (scanIdx f g0 0 a x)[i]? = some w ∧ rel u w := by
  obtain ⟨hl, hget⟩ := scanIdx_spec f g a x
  obtain ⟨hl0, hget0⟩ := scanIdx_spec f g0 a x
  exact ⟨hl, hl0, fun i hi => ⟨_, _, hget i hi, hget0 i hi, h _ _⟩⟩

theorem scanIdx_append (f : Nat → β → α → β) (g : Nat → β → α) (x y : List α) :
    ∀ (i : Nat) (a : β), scanIdx f g i a (x ++ y)
      = scanIdx f g i a x ++ scanIdx f g (i + x.length) (foldIdx f i a x) y := by
  induction x with
  | nil => intro i a; simp [scanIdx, foldIdx]
  | cons v vs ih =>
    intro i a
    have h : i + 1 + vs.length = i + (vs.length + 1) := by omega
    have e : scanIdx f g i a (v :: vs ++ y)
        = g i (f i a v) :: scanIdx f g (i + 1) (f i a v) (vs ++ y) := rfl
    rw [e, ih (i + 1) (f i a v), h]
    rfl

/-- The scan of `x ++ y`, cut to the length of `x`, is the scan of `x`. -/
theorem take_scanIdx_append (f : Nat → β → α → β) (g : Nat → β → α) (x y : List α)
    (i : Nat) (a : β) :
    (scanIdx f g i a (x ++ y)).take x.length = scanIdx f g i a x := by
  rw [scanIdx_append, List.take_left' (length_scanIdx f g x i a)]

theorem take_subset_take {x : List α} {i j : Nat} (h : i ≤ j) {v : α}
    (hv : v ∈ x.take i) : v ∈ x.take j := by
  have : x.take i = (x.take j).take i := by
    rw [List.take_take, Nat.min_eq_left h]
  rw [this] at hv
  exact List.mem_of_mem_take hv

/-- The running minimum does not increase and the running maximum does not decrease
along the prefixes of a non-empty input. -/
theorem foldIdx_min_max_mono (x0 : ℚ) (xs : List ℚ) (a : ℚ) {i j : Nat} (h : i ≤ j) :
    foldIdx minStep 0 a ((x0 :: xs).take (j + 1)) ≤ foldIdx minStep 0 a ((x0 :: xs).take (i + 1)) ∧
    foldIdx maxStep 0 a ((x0 :: xs).take (i + 1)) ≤ foldIdx maxStep 0 a ((x0 :: xs).take (j + 1)) :=
  ⟨(foldIdx_minStep_least x0 xs a j).2 _
      (take_subset_take (Nat.succ_le_succ h) (foldIdx_minStep_least x0 xs a i).1),
    (foldIdx_maxStep_greatest x0 xs a j).2 _
      (take_subset_take (Nat.succ_le_succ h) (foldIdx_maxStep_greatest x0 xs a i).1)⟩

theorem foldIdx_append_singleton (f : Nat → β → α → β) (l : List α) (v : α) :
    ∀ (i : Nat) (a : β),
      foldIdx f i a (l ++ [v]) = f (i + l.length) (foldIdx f i a l) v := by
  induction l with
  | nil => intro i a; rfl
  | cons w ws ih =>
    intro i a
    have h : i + 1 + ws.length = i + (ws.length + 1) := by omega
    have e : foldIdx f i a (w :: ws ++ [v]) = foldIdx f (i + 1) (f i a w) (ws ++ [v]) := rfl
    rw [e, ih (i + 1) (f i a w), h]
    rfl

theorem take_succ_of_getElem? {x : List α} {i : Nat} {v : α} (h : x[i]? = some v) :
    x.take (i + 1) = x.take i ++ [v] := by
  rw [List.take_succ, h]
  rfl

/-- A step after the first one that reads a NaN keeps the running minimum and the
running maximum. -/
theorem minStep_maxStep_nan [LT α] [DecidableRel (fun a b : α => a < b)] (nan : α)
    (hlt : ∀ a : α, ¬ nan < a) (hgt : ∀ a : α, ¬ a < nan) (i : Nat) (m : α) :
    minStep (i + 1) m nan = m ∧ maxStep (i + 1) m nan = m := by
  simp [minStep, maxStep, hlt, hgt]

/-- A running minimum or maximum that is NaN stays NaN. -/
theorem foldIdx_nan_seed [LT α] [DecidableRel (fun a b : α => a < b)] (nan : α)
    (hlt : ∀ a : α, ¬ nan < a) (hgt : ∀ a : α, ¬ a < nan) (l : List α) :
    ∀ i : Nat, foldIdx minStep (i + 1) nan l = nan ∧ foldIdx maxStep (i + 1) nan l = nan := by
  induction l with
  | nil => intro i; exact ⟨rfl, rfl⟩
  | cons v vs ih =>
    intro i
    have h1 : minStep (i + 1) nan v = nan := by simp [minStep, hgt]
    have h2 : maxStep (i + 1) nan v = nan := by simp [maxStep, hlt]
    simp only [foldIdx, h1, h2]
    exact ih (i + 1)

theorem Dbl.not_nan_lt (a : Dbl) : ¬ Dbl.nan < a := by
  show ¬ Dbl.blt Dbl.nan a = true
  simp [Dbl.blt]

theorem Dbl.not_lt_nan (a : Dbl) : ¬ a < Dbl.nan := by
  show ¬ Dbl.blt a Dbl.nan = true
  cases a <;> simp [Dbl.blt]

theorem Dbl.add_nan (a : Dbl) : a + Dbl.nan = Dbl.nan := by
  show Dbl.add a Dbl.nan = Dbl.nan
  cases a <;> rfl

theorem length_nsmul_le_sum (m : ℚ) (l : List ℚ) (h : ∀ v ∈ l, m ≤ v) :
    (l.length : ℚ) * m ≤ l.sum := by
  induction l with
  | nil => simp
  | cons v vs ih =>
    have h1 : m ≤ v := h v (List.mem_cons_self _ _)
    have h2 := ih (fun w hw => h w (List.mem_cons_of_mem _ hw))
    simp only [List.length_cons, List.sum_cons, Nat.cast_add, Nat.cast_one]
    linarith

theorem sum_le_length_nsmul (m : ℚ) (l : List ℚ) (h : ∀ v ∈ l, v ≤ m) :
    l.sum ≤ (l.length : ℚ) * m := by
  induction l with
  | nil => simp
  | cons v vs ih =>
    have h1 : v ≤ m := h v (List.mem_cons_self _ _)
    have h2 := ih (fun w hw => h w (List.mem_cons_of_mem _ hw))
    simp only [List.length_cons, List.sum_cons, Nat.cast_add, Nat.cast_one]
    linarith

/-- The mean of a non-empty prefix lies between its running minimum and its running
maximum; the three stored values keep that order. -/
theorem min_le_mean_le_max (x0 : ℚ) (xs : List ℚ) (c : ℚ) (i : Nat)
    (hi : i < (x0 :: xs).length) :
    offsetOut c i (foldIdx minStep 0 x0 ((x0 :: xs).take (i + 1)))
        ≤ meanOut c i (foldIdx sumStep 0 0 ((x0 :: xs).take (i + 1))) ∧
    meanOut c i (foldIdx sumStep 0 0 ((x0 :: xs).take (i + 1)))
        ≤ offsetOut c i (foldIdx maxStep 0 x0 ((x0 :: xs).take (i + 1))) := by
  have hlen : ((x0 :: xs).take (i + 1)).length = i + 1 := by
    rw [List.length_take]; omega
  have hpos : (0 : ℚ) < ((i + 1 : Nat) : ℚ) := by exact_mod_cast Nat.succ_pos i
  have h1 := length_nsmul_le_sum _ _ (foldIdx_minStep_least x0 xs x0 i).2
  have h2 := sum_le_length_nsmul _ _ (foldIdx_maxStep_greatest x0 xs x0 i).2
  rw [hlen] at h1 h2
  simp only [offsetOut, meanOut, foldIdx_sumStep, zero_add]
  constructor
  · have : foldIdx minStep 0 x0 ((x0 :: xs).take (i + 1))
        ≤ ((x0 :: xs).take (i + 1)).sum / ((i + 1 : Nat) : ℚ) := by
      rw [le_div_iff₀ hpos]; linarith
    linarith
  · have : ((x0 :: xs).take (i + 1)).sum / ((i + 1 : Nat) : ℚ)
        ≤ foldIdx maxStep 0 x0 ((x0 :: xs).take (i + 1)) := by
      rw [div_le_iff₀ hpos]; linarith
    linarith

theorem minStep_eq_neg_maxStep (i : Nat) (a v : ℚ) :
    minStep i a v = -maxStep i (-a) (-v) := by
  unfold minStep maxStep
  by_cases hi : i = 0
  · simp [hi]
  · by_cases h : v < a
    · simp [hi, h]
    · simp [hi, h]

theorem foldIdx_minStep_eq_neg (l : List ℚ) : ∀ (i : Nat) (a : ℚ),
    foldIdx minStep i a l = -foldIdx maxStep i (-a) (l.map (fun v => -v)) := by
  induction l with
  | nil => intro i a; simp [foldIdx]
  | cons v vs ih =>
    intro i a
    simp only [List.map_cons, foldIdx]
    rw [ih (i + 1) (minStep i a v), minStep_eq_neg_maxStep i a v, neg_neg]

theorem prod_one_add_eq_zero (l : List ℚ) (h : (-1 : ℚ) ∈ l) :
    (l.map (fun v => 1 + v)).prod = 0 := by
  apply List.prod_eq_zero
  rw [List.mem_map]
  exact ⟨-1, h, by norm_num⟩

end Lemmas

/-! ## The claims -/

/-- C1. Batch/single consistency, for every arithmetic on the scalars: on a non-empty `x`
`rcpp_batch_cumstats x c` and the five single-statistic functions all return; the matrix
has `length x` rows, 5 columns (named `cum_sum`, `cum_prod`, `cum_min`, `cum_max`,
`cum_mean`, in that order), and its columns 0 to 4 are the results of `rcpp_cumsum_init`,
`rcpp_cumprod_init`, `rcpp_cummin_init`, `rcpp_cummax_init` and `rcpp_cummean_init`
on the same `x` and `c`. -/
theorem batch_single_consistency {α : Type} [Zero α] [One α] [Add α] [Mul α] [Div α]
    [NatCast α] [LT α] [DecidableRel (fun a b : α => a < b)]
    (x : List α) (c : α) (hx : x ≠ []) :
    ∃ (m : NumericMatrix α) (s p mn mx me : List α),
      rcpp_batch_cumstats x c = Except.ok m ∧
      rcpp_cumsum_init x c = Except.ok s ∧
      rcpp_cumprod_init x c = Except.ok p ∧
      rcpp_cummin_init x c = Except.ok mn ∧
      rcpp_cummax_init x c = Except.ok mx ∧
      rcpp_cummean_init x c = Except.ok me ∧
      m.nrow = x.length ∧ m.ncol = 5 ∧ m.data.length = x.length * 5 ∧
      m.colnames = ["cum_sum", "cum_prod", "cum_min", "cum_max", "cum_mean"] ∧
      m.column 0 = s ∧ m.column 1 = p ∧ m.column 2 = mn ∧ m.column 3 = mx ∧
      m.column 4 = me := by
  obtain ⟨x0, xs, rfl⟩ := List.exists_cons_of_ne_nil hx
  obtain ⟨m, hm, hn, hc, hd, hnames, c0, c1, c2, c3, c4⟩ := batch_eq x0 xs c
  exact ⟨m, _, _, _, _, _, hm, cumsum_eq _ c, cumprod_eq _ c, cummin_eq x0 xs c,
    cummax_eq x0 xs c, cummean_eq _ c, hn, hc, hd, hnames, c0, c1, c2, c3, c4⟩

/-- Witness of C1 at `x = [1, -2, 3]`, `c = 10` over the rationals. -/
theorem batch_single_consistency_witness :
    ([1, -2, 3] : List ℚ) ≠ [] ∧
    ∃ (m : NumericMatrix ℚ) (s p mn mx me : List ℚ),
      rcpp_batch_cumstats [1, -2, 3] 10 = Except.ok m ∧
      rcpp_cumsum_init [1, -2, 3] 10 = Except.ok s ∧
      rcpp_cumprod_init [1, -2, 3] 10 = Except.ok p ∧
      rcpp_cummin_init [1, -2, 3] 10 = Except.ok mn ∧
      rcpp_cummax_init [1, -2, 3] 10 = Except.ok mx ∧
      rcpp_cummean_init [1, -2, 3] 10 = Except.ok me ∧
      m.nrow = ([1, -2, 3] : List ℚ).length ∧ m.ncol = 5 ∧
      m.data.length = ([1, -2, 3] : List ℚ).length * 5 ∧
      m.colnames = ["cum_sum", "cum_prod", "cum_min", "cum_max", "cum_mean"] ∧
      m.column 0 = s ∧ m.column 1 = p ∧ m.column 2 = mn ∧ m.column 3 = mx ∧
      m.column 4 = me :=
  ⟨by simp, batch_single_consistency [1, -2, 3] 10 (by simp)⟩

/-- C2, the code at the failing input. On the empty vector `rcpp_cummin_init`,
`rcpp_cummax_init` and `rcpp_batch_cumstats` have no length check: each of them executes
the seed read `x[0]`, an access at index 0 of a vector of size 0. -/
theorem empty_input_seed_read {α : Type} [Zero α] [One α] [Add α] [Mul α] [Div α]
    [NatCast α] [LT α] [DecidableRel (fun a b : α => a < b)] (c : α) :
    rcpp_cummin_init ([] : List α) c = Except.error (Fault.outOfBounds 0 0) ∧
    rcpp_cummax_init ([] : List α) c = Except.error (Fault.outOfBounds 0 0) ∧
    rcpp_batch_cumstats ([] : List α) c = Except.error (Fault.outOfBounds 0 0) := by
  refine ⟨?_, ?_, batch_nil c⟩
  · simp [rcpp_cummin_init, readAt_nil, bind, Except.bind]
  · simp [rcpp_cummax_init, readAt_nil, bind, Except.bind]

/-- C3. Cumulative sum contract (exact arithmetic): `rcpp_cumsum_init x c` returns a
vector `r` of the length of `x` with `r[i] = c + (x[0] + ... + x[i])` at every index. -/
theorem cumsum_contract (x : List ℚ) (c : ℚ) :
    ∃ r, rcpp_cumsum_init x c = Except.ok r ∧ r.length = x.length ∧
      ∀ i, i < x.length → r[i]? = some (c + (x.take (i + 1)).sum) := by
  obtain ⟨hl, hget⟩ := scanIdx_spec sumStep (offsetOut c) 0 x
  refine ⟨_, cumsum_eq x c, hl, ?_⟩
  intro i hi
  rw [hget i hi, foldIdx_sumStep]
  simp [offsetOut]

/-- C4. Cumulative product contract (exact arithmetic): `rcpp_cumprod_init x c` returns a
vector `r` of the length of `x` with `r[i] = c * ((1 + x[0]) * ... * (1 + x[i]))`. -/
theorem cumprod_contract (x : List ℚ) (c : ℚ) :
    ∃ r, rcpp_cumprod_init x c = Except.ok r ∧ r.length = x.length ∧
      ∀ i, i < x.length →
        r[i]? = some (c * ((x.take (i + 1)).map (fun v => 1 + v)).prod) := by
  obtain ⟨hl, hget⟩ := scanIdx_spec prodStep (scaleOut c) 1 x
  refine ⟨_, cumprod_eq x c, hl, ?_⟩
  intro i hi
  rw [hget i hi, foldIdx_prodStep]
  simp [scaleOut]

/-- C5. Cumulative minimum contract (exact arithmetic): on a non-empty `x`,
`rcpp_cummin_init x c` returns a vector `r` of the length of `x` with `r[i] = c + m`,
where `m` is an element of `x[0..i]` and `m ≤ x[j]` for every `j ≤ i`. -/
theorem cummin_contract (x : List ℚ) (c : ℚ) (hx : x ≠ []) :
    ∃ r, rcpp_cummin_init x c = Except.ok r ∧ r.length = x.length ∧
      ∀ i, i < x.length → ∃ m, r[i]? = some (c + m) ∧ m ∈ x.take (i + 1) ∧
        ∀ j v, j ≤ i → x[j]? = some v → m ≤ v := by
  obtain ⟨x0, xs, rfl⟩ := List.exists_cons_of_ne_nil hx
  obtain ⟨hl, hget⟩ := scanIdx_spec minStep (offsetOut c) x0 (x0 :: xs)
  refine ⟨_, cummin_eq x0 xs c, hl, ?_⟩
  intro i hi
  obtain ⟨hm, hle⟩ := foldIdx_minStep_least x0 xs x0 i
  exact ⟨_, by rw [hget i hi]; rfl, hm, fun j v hj hv => hle v (mem_take_of_getElem? hj hv)⟩

/-- Witness of C5 at `x = [1, -2, 3]`, `c = 10`. -/
theorem cummin_contract_witness :
    ([1, -2, 3] : List ℚ) ≠ [] ∧
    ∃ r, rcpp_cummin_init ([1, -2, 3] : List ℚ) 10 = Except.ok r ∧
      r.length = ([1, -2, 3] : List ℚ).length ∧
      ∀ i, i < ([1, -2, 3] : List ℚ).length → ∃ m, r[i]? = some (10 + m) ∧
        m ∈ ([1, -2, 3] : List ℚ).take (i + 1) ∧
        ∀ j v, j ≤ i → ([1, -2, 3] : List ℚ)[j]? = some v → m ≤ v :=
  ⟨by simp, cummin_contract [1, -2, 3] 10 (by simp)⟩

/-- C6. Cumulative maximum contract (exact arithmetic): on a non-empty `x`,
`rcpp_cummax_init x c` returns a vector `r` of the length of `x` with `r[i] = c + M`,
where `M` is an element of `x[0..i]` and `M ≥ x[j]` for every `j ≤ i`. -/
theorem cummax_contract (x : List ℚ) (c : ℚ) (hx : x ≠ []) :
    ∃ r, rcpp_cummax_init x c = Except.ok r ∧ r.length = x.length ∧
      ∀ i, i < x.length → ∃ m, r[i]? = some (c + m) ∧ m ∈ x.take (i + 1) ∧
        ∀ j v, j ≤ i → x[j]? = some v → v ≤ m := by
  obtain ⟨x0, xs, rfl⟩ := List.exists_cons_of_ne_nil hx
  obtain ⟨hl, hget⟩ := scanIdx_spec maxStep (offsetOut c) x0 (x0 :: xs)
  refine ⟨_, cummax_eq x0 xs c, hl, ?_⟩
  intro i hi
  obtain ⟨hm, hle⟩ := foldIdx_maxStep_greatest x0 xs x0 i
  exact ⟨_, by rw [hget i hi]; rfl, hm, fun j v hj hv => hle v (mem_take_of_getElem? hj hv)⟩

/-- Witness of C6 at `x = [1, -2, 3]`, `c = 10`. -/
theorem cummax_contract_witness :
    ([1, -2, 3] : List ℚ) ≠ [] ∧
    ∃ r, rcpp_cummax_init ([1, -2, 3] : List ℚ) 10 = Except.ok r ∧
      r.length = ([1, -2, 3] : List ℚ).length ∧
      ∀ i, i < ([1, -2, 3] : List ℚ).length → ∃ m, r[i]? = some (10 + m) ∧
        m ∈ ([1, -2, 3] : List ℚ).take (i + 1) ∧
        ∀ j v, j ≤ i → ([1, -2, 3] : List ℚ)[j]? = some v → v ≤ m :=
  ⟨by simp, cummax_contract [1, -2, 3] 10 (by simp)⟩

/-- C7. Cumulative mean contract (exact arithmetic): `rcpp_cummean_init x c` returns a
vector `r` of the length of `x` with `r[i] = c + (x[0] + ... + x[i]) / (i + 1)`, and the
divisor `i + 1` is not zero. -/
theorem cummean_contract (x : List ℚ) (c : ℚ) :
    ∃ r, rcpp_cummean_init x c = Except.ok r ∧ r.length = x.length ∧
      ∀ i, i < x.length → ((i + 1 : Nat) : ℚ) ≠ 0 ∧
        r[i]? = some (c + (x.take (i + 1)).sum / ((i + 1 : Nat) : ℚ)) := by
  obtain ⟨hl, hget⟩ := scanIdx_spec sumStep (meanOut c) 0 x
  refine ⟨_, cummean_eq x c, hl, ?_⟩
  intro i hi
  refine ⟨by exact_mod_cast Nat.succ_ne_zero i, ?_⟩
  rw [hget i hi, foldIdx_sumStep]
  simp [meanOut]

/-- C8. Empty input without fault, for every arithmetic on the scalars: on the empty
vector `rcpp_cumsum_init`, `rcpp_cummean_init` and `rcpp_cumprod_init` return the empty
vector. No element of `x` is read (any read of the empty vector would be a fault, and
the calls return without one), and a loop over the empty vector never runs its body,
whatever the body is. -/
theorem empty_input_no_fault {α : Type} [Zero α] [One α] [Add α] [Mul α] [Div α]
    [NatCast α] (c : α) :
    rcpp_cumsum_init ([] : List α) c = Except.ok [] ∧
    rcpp_cummean_init ([] : List α) c = Except.ok [] ∧
    rcpp_cumprod_init ([] : List α) c = Except.ok [] ∧
    (∀ i, readAt ([] : List α) i = Except.error (Fault.outOfBounds i 0)) ∧
    ∀ (body : Nat → α × List α → Run (α × List α)) (st : α × List α),
      forLoop body ([] : List α).length 0 st = Except.ok st := by
  refine ⟨rfl, rfl, rfl, readAt_nil, fun _ _ => rfl⟩

/-- C9. Additivity of offset (exact arithmetic): for the sum and the mean on every `x`,
and for the minimum and the maximum on every non-empty `x`, the call with offset `c` and
the call with offset `0` both return, and at every index the first result is the second
plus `c`. -/
theorem offset_additivity (x : List ℚ) (c : ℚ) :
    (∃ r r0, rcpp_cumsum_init x c = Except.ok r ∧ rcpp_cumsum_init x 0 = Except.ok r0 ∧
      OffsetBy x.length c r r0) ∧
    (∃ r r0, rcpp_cummean_init x c = Except.ok r ∧ rcpp_cummean_init x 0 = Except.ok r0 ∧
      OffsetBy x.length c r r0) ∧
    (x ≠ [] →
      (∃ r r0, rcpp_cummin_init x c = Except.ok r ∧ rcpp_cummin_init x 0 = Except.ok r0 ∧
        OffsetBy x.length c r r0) ∧
      (∃ r r0, rcpp_cummax_init x c = Except.ok r ∧ rcpp_cummax_init x 0 = Except.ok r0 ∧
        OffsetBy x.length c r r0)) := by
  have hoff : ∀ (i : Nat) (s : ℚ), offsetOut c i s = offsetOut 0 i s + c := by
    intro i s; simp [offsetOut, add_comm]
  have hmean : ∀ (i : Nat) (s : ℚ), meanOut c i s = meanOut 0 i s + c := by
    intro i s; simp [meanOut, add_comm]
  refine ⟨⟨_, _, cumsum_eq x c, cumsum_eq x 0, ?_⟩, ⟨_, _, cummean_eq x c, cummean_eq x 0, ?_⟩,
    ?_⟩
  · exact scanIdx_pointwise sumStep (offsetOut c) (offsetOut 0) 0 x (fun u w => u = w + c) hoff
  · exact scanIdx_pointwise sumStep (meanOut c) (meanOut 0) 0 x (fun u w => u = w + c) hmean
  · intro hx
    obtain ⟨x0, xs, rfl⟩ := List.exists_cons_of_ne_nil hx
    refine ⟨⟨_, _, cummin_eq x0 xs c, cummin_eq x0 xs 0, ?_⟩,
      ⟨_, _, cummax_eq x0 xs c, cummax_eq x0 xs 0, ?_⟩⟩
    · exact scanIdx_pointwise minStep (offsetOut c) (offsetOut 0) x0 (x0 :: xs)
        (fun u w => u = w + c) hoff
    · exact scanIdx_pointwise maxStep (offsetOut c) (offsetOut 0) x0 (x0 :: xs)
        (fun u w => u = w + c) hoff

/-- Witness of C9 at `x = [1, -2, 3]`, `c = 10`. -/
theorem offset_additivity_witness :
    ([1, -2, 3] : List ℚ) ≠ [] ∧
    (∃ r r0, rcpp_cummin_init ([1, -2, 3] : List ℚ) 10 = Except.ok r ∧
      rcpp_cummin_init ([1, -2, 3] : List ℚ) 0 = Except.ok r0 ∧ OffsetBy 3 10 r r0) ∧
    (∃ r r0, rcpp_cummax_init ([1, -2, 3] : List ℚ) 10 = Except.ok r ∧
      rcpp_cummax_init ([1, -2, 3] : List ℚ) 0 = Except.ok r0 ∧ OffsetBy 3 10 r r0) :=
  ⟨by simp, (offset_additivity [1, -2, 3] 10).2.2 (by simp)⟩

/-- C10. Scaling of the product seed (exact arithmetic): the calls of `rcpp_cumprod_init`
with seed `c` and with seed `1` both return, and at every index the first result is `c`
times the second. -/
theorem product_seed_scaling (x : List ℚ) (c : ℚ) :
    ∃ r r1, rcpp_cumprod_init x c = Except.ok r ∧ rcpp_cumprod_init x 1 = Except.ok r1 ∧
      ScaledBy x.length c r r1 := by
  refine ⟨_, _, cumprod_eq x c, cumprod_eq x 1, ?_⟩
  exact scanIdx_pointwise prodStep (scaleOut c) (scaleOut 1) 1 x (fun u w => u = c * w)
    (by intro i s; simp [scaleOut])

/-- C11. Monotonic accumulation (exact arithmetic): on a non-empty `x`, for all indices
`i ≤ j < n`, the cumulative minimum at `j` is at most the one at `i`, and the cumulative
maximum at `j` is at least the one at `i`. -/
theorem min_max_monotone (x : List ℚ) (c : ℚ) (hx : x ≠ []) :
    ∃ mn mx, rcpp_cummin_init x c = Except.ok mn ∧ rcpp_cummax_init x c = Except.ok mx ∧
      mn.length = x.length ∧ mx.length = x.length ∧
      ∀ i j, i ≤ j → j < x.length →
        (∃ u w, mn[i]? = some u ∧ mn[j]? = some w ∧ w ≤ u) ∧
        (∃ u w, mx[i]? = some u ∧ mx[j]? = some w ∧ u ≤ w) := by
  obtain ⟨x0, xs, rfl⟩ := List.exists_cons_of_ne_nil hx
  obtain ⟨hl, hget⟩ := scanIdx_spec minStep (offsetOut c) x0 (x0 :: xs)
  obtain ⟨hl1, hget1⟩ := scanIdx_spec maxStep (offsetOut c) x0 (x0 :: xs)
  refine ⟨_, _, cummin_eq x0 xs c, cummax_eq x0 xs c, hl, hl1, ?_⟩
  intro i j hij hj
  have hi : i < (x0 :: xs).length := Nat.lt_of_le_of_lt hij hj
  obtain ⟨hmin, hmax⟩ := foldIdx_min_max_mono x0 xs x0 hij
  refine ⟨⟨_, _, hget i hi, hget j hj, ?_⟩, ⟨_, _, hget1 i hi, hget1 j hj, ?_⟩⟩
  · simpa [offsetOut] using hmin
  · simpa [offsetOut] using hmax

/-- Witness of C11 at `x = [1, -2, 3]`, `c = 10`. -/
theorem min_max_monotone_witness :
    ([1, -2, 3] : List ℚ) ≠ [] ∧
    ∃ mn mx, rcpp_cummin_init ([1, -2, 3] : List ℚ) 10 = Except.ok mn ∧
      rcpp_cummax_init ([1, -2, 3] : List ℚ) 10 = Except.ok mx ∧
      mn.length = ([1, -2, 3] : List ℚ).length ∧ mx.length = ([1, -2, 3] : List ℚ).length ∧
      ∀ i j, i ≤ j → j < ([1, -2, 3] : List ℚ).length →
        (∃ u w, mn[i]? = some u ∧ mn[j]? = some w ∧ w ≤ u) ∧
        (∃ u w, mx[i]? = some u ∧ mx[j]? = some w ∧ u ≤ w) :=
  ⟨by simp, min_max_monotone [1, -2, 3] 10 (by simp)⟩

/-- C12. Prefix stability, for every arithmetic on the scalars: the first `length x`
elements of the result on `x ++ y` are the result on `x`, for the sum, the product and the
mean on every `x`, and for the minimum and the maximum on every non-empty `x`. -/
theorem prefix_stability {α : Type} [Zero α] [One α] [Add α] [Mul α] [Div α]
    [NatCast α] [LT α] [DecidableRel (fun a b : α => a < b)] (x y : List α) (c : α) :
    (∃ r ry, rcpp_cumsum_init x c = Except.ok r ∧ rcpp_cumsum_init (x ++ y) c = Except.ok ry ∧
      ry.take x.length = r) ∧
    (∃ r ry, rcpp_cumprod_init x c = Except.ok r ∧
      rcpp_cumprod_init (x ++ y) c = Except.ok ry ∧ ry.take x.length = r) ∧
    (∃ r ry, rcpp_cummean_init x c = Except.ok r ∧
      rcpp_cummean_init (x ++ y) c = Except.ok ry ∧ ry.take x.length = r) ∧
    (x ≠ [] →
      (∃ r ry, rcpp_cummin_init x c = Except.ok r ∧
        rcpp_cummin_init (x ++ y) c = Except.ok ry ∧ ry.take x.length = r) ∧
      (∃ r ry, rcpp_cummax_init x c = Except.ok r ∧
        rcpp_cummax_init (x ++ y) c = Except.ok ry ∧ ry.take x.length = r)) := by
  refine ⟨⟨_, _, cumsum_eq x c, cumsum_eq (x ++ y) c, take_scanIdx_append _ _ x y 0 0⟩,
    ⟨_, _, cumprod_eq x c, cumprod_eq (x ++ y) c, take_scanIdx_append _ _ x y 0 1⟩,
    ⟨_, _, cummean_eq x c, cummean_eq (x ++ y) c, take_scanIdx_append _ _ x y 0 0⟩, ?_⟩
  intro hx
  obtain ⟨x0, xs, rfl⟩ := List.exists_cons_of_ne_nil hx
  exact ⟨⟨_, _, cummin_eq x0 xs c, cummin_eq x0 (xs ++ y) c,
      take_scanIdx_append _ _ (x0 :: xs) y 0 x0⟩,
    ⟨_, _, cummax_eq x0 xs c, cummax_eq x0 (xs ++ y) c,
      take_scanIdx_append _ _ (x0 :: xs) y 0 x0⟩⟩

/-- Witness of C12 at `x = [1, -2]`, `y = [3]`, `c = 10` over the rationals. -/
theorem prefix_stability_witness :
    ([1, -2] : List ℚ) ≠ [] ∧
    (∃ r ry, rcpp_cummin_init ([1, -2] : List ℚ) 10 = Except.ok r ∧
      rcpp_cummin_init (([1, -2] : List ℚ) ++ [3]) 10 = Except.ok ry ∧
      ry.take ([1, -2] : List ℚ).length = r) ∧
    (∃ r ry, rcpp_cummax_init ([1, -2] : List ℚ) 10 = Except.ok r ∧
      rcpp_cummax_init (([1, -2] : List ℚ) ++ [3]) 10 = Except.ok ry ∧
      ry.take ([1, -2] : List ℚ).length = r) :=
  ⟨by simp, (prefix_stability [1, -2] [3] 10).2.2.2 (by simp)⟩

/-- C13, the claim as stated fails: with `initial_value = 0` the product of `x = [5]` is
`[0 * (1 + 5)] = [0]`, not `[6]`. -/
theorem single_element_product_seed_zero :
    rcpp_cumprod_init ([5] : List ℚ) 0 = Except.ok [0] ∧
    rcpp_cumprod_init ([5] : List ℚ) 0 ≠ Except.ok [6] := by
  have h : rcpp_cumprod_init ([5] : List ℚ) 0 = Except.ok [0] := by
    rw [cumprod_eq]; simp [scanIdx, scaleOut]
  refine ⟨h, ?_⟩
  rw [h]
  simp

/-- C13 as amended. For `x = [5]`: with `initial_value = 0` the sum, the minimum, the
maximum and the mean return `[5]` and the product returns `[0]`; the product returns
`[6]` with `initial_value = 1`. -/
theorem single_element_case :
    rcpp_cumsum_init ([5] : List ℚ) 0 = Except.ok [5] ∧
    rcpp_cumprod_init ([5] : List ℚ) 0 = Except.ok [0] ∧
    rcpp_cumprod_init ([5] : List ℚ) 1 = Except.ok [6] ∧
    rcpp_cummin_init ([5] : List ℚ) 0 = Except.ok [5] ∧
    rcpp_cummax_init ([5] : List ℚ) 0 = Except.ok [5] ∧
    rcpp_cummean_init ([5] : List ℚ) 0 = Except.ok [5] := by
  refine ⟨?_, ?_, ?_, ?_, ?_, ?_⟩
  · rw [cumsum_eq]; simp [scanIdx, sumStep, offsetOut]
  · rw [cumprod_eq]; simp [scanIdx, scaleOut]
  · rw [cumprod_eq]; simp [scanIdx, prodStep, scaleOut]; norm_num
  · rw [cummin_eq]; simp [scanIdx, minStep, offsetOut]
  · rw [cummax_eq]; simp [scanIdx, maxStep, offsetOut]
  · rw [cummean_eq]; simp [scanIdx, sumStep, meanOut]

/-- C14. Worked example: for `x = [1, -2, 3]` and `initial_value = 10` the sum is
`[11, 9, 12]`, the minimum `[11, 8, 8]` and the maximum `[11, 11, 13]`. -/
theorem worked_example_sum_min_max :
    rcpp_cumsum_init ([1, -2, 3] : List ℚ) 10 = Except.ok [11, 9, 12] ∧
    rcpp_cummin_init ([1, -2, 3] : List ℚ) 10 = Except.ok [11, 8, 8] ∧
    rcpp_cummax_init ([1, -2, 3] : List ℚ) 10 = Except.ok [11, 11, 13] := by
  refine ⟨?_, ?_, ?_⟩
  · rw [cumsum_eq]; simp [scanIdx, sumStep, offsetOut]; norm_num
  · rw [cummin_eq]; simp [scanIdx, minStep, offsetOut]; norm_num
  · rw [cummax_eq]; simp [scanIdx, maxStep, offsetOut]; norm_num

/-- C15 as amended. For `x = [1, -2, 3]` and `initial_value = 10` the mean is
`[11, 19/2, 32/3]`: the running sums are `1, -1, 2` and the means `1, -1/2, 2/3`. -/
theorem worked_example_mean :
    rcpp_cummean_init ([1, -2, 3] : List ℚ) 10 = Except.ok [11, 19 / 2, 32 / 3] := by
  rw [cummean_eq]; simp [scanIdx, sumStep, meanOut]; norm_num

/-- C15, the claim as stated fails: the mean of `x = [1, -2, 3]` with
`initial_value = 10` is not `[11, 9, 10]`. -/
theorem worked_example_mean_not_as_stated :
    rcpp_cummean_init ([1, -2, 3] : List ℚ) 10 ≠ Except.ok [11, 9, 10] := by
  have h : rcpp_cummean_init ([1, -2, 3] : List ℚ) 10 = Except.ok [11, 19 / 2, 32 / 3] := by
    rw [cummean_eq]; simp [scanIdx, sumStep, meanOut]; norm_num
  rw [h]
  norm_num

/-- C16. NaN propagation in the minimum and the maximum, for every arithmetic in which a
value `nan` compares false with everything (`nan < a` and `a < nan` never hold) and
absorbs addition: on a non-empty `x`, a NaN read at a position `i + 1` leaves the running
value as it was at position `i` (outputs `i` and `i + 1` are the offset plus the same
running value), and if `x[0]` is NaN then every output is NaN. -/
theorem nan_propagation {α : Type} [Zero α] [Add α] [LT α]
    [DecidableRel (fun a b : α => a < b)] (nan : α)
    (hlt : ∀ a : α, ¬ nan < a) (hgt : ∀ a : α, ¬ a < nan) (hadd : ∀ a : α, a + nan = nan)
    (x : List α) (c : α) (hx : x ≠ []) :
    ∃ mn mx, rcpp_cummin_init x c = Except.ok mn ∧ rcpp_cummax_init x c = Except.ok mx ∧
      mn.length = x.length ∧ mx.length = x.length ∧
      (∀ i, i + 1 < x.length → x[i + 1]? = some nan →
        (∃ m, mn[i]? = some (c + m) ∧ mn[i + 1]? = some (c + m)) ∧
        (∃ m, mx[i]? = some (c + m) ∧ mx[i + 1]? = some (c + m))) ∧
      (x[0]? = some nan →
        ∀ i, i < x.length → mn[i]? = some nan ∧ mx[i]? = some nan) := by
  obtain ⟨x0, xs, rfl⟩ := List.exists_cons_of_ne_nil hx
  obtain ⟨hl, hget⟩ := scanIdx_spec minStep (offsetOut c) x0 (x0 :: xs)
  obtain ⟨hl1, hget1⟩ := scanIdx_spec maxStep (offsetOut c) x0 (x0 :: xs)
  refine ⟨_, _, cummin_eq x0 xs c, cummax_eq x0 xs c, hl, hl1, ?_, ?_⟩
  · intro i hi hnan
    have hi0 : i < (x0 :: xs).length := by omega
    have hlen : ((x0 :: xs).take (i + 1)).length = i + 1 := by
      rw [List.length_take]; omega
    have hmin : foldIdx minStep 0 x0 ((x0 :: xs).take (i + 1 + 1))
        = foldIdx minStep 0 x0 ((x0 :: xs).take (i + 1)) := by
      rw [take_succ_of_getElem? hnan, foldIdx_append_singleton, hlen, Nat.zero_add]
      exact (minStep_maxStep_nan nan hlt hgt i _).1
    have hmax : foldIdx maxStep 0 x0 ((x0 :: xs).take (i + 1 + 1))
        = foldIdx maxStep 0 x0 ((x0 :: xs).take (i + 1)) := by
      rw [take_succ_of_getElem? hnan, foldIdx_append_singleton, hlen, Nat.zero_add]
      exact (minStep_maxStep_nan nan hlt hgt i _).2
    refine ⟨⟨_, hget i hi0, ?_⟩, ⟨_, hget1 i hi0, ?_⟩⟩
    · rw [hget (i + 1) hi, hmin]; rfl
    · rw [hget1 (i + 1) hi, hmax]; rfl
  · intro h0 i hi
    have hx0 : x0 = nan := by simpa using h0
    subst hx0
    have hmin : foldIdx minStep 0 x0 ((x0 :: xs).take (i + 1)) = x0 :=
      (foldIdx_nan_seed x0 hlt hgt (xs.take i) 0).1
    have hmax : foldIdx maxStep 0 x0 ((x0 :: xs).take (i + 1)) = x0 :=
      (foldIdx_nan_seed x0 hlt hgt (xs.take i) 0).2
    rw [hget i hi, hget1 i hi, hmin, hmax]
    simp [offsetOut, hadd]

/-- Witness of C16 in the model `Dbl`: at `x = [3, NaN, 1]`, `c = 10`, `i = 0` for a NaN
inside the input, and at `x = [NaN, 1]`, `c = 10` for a NaN at the first position. -/
theorem nan_propagation_witness :
    ([Dbl.val 3, Dbl.nan, Dbl.val 1] ≠ [] ∧
      ∃ mn mx, rcpp_cummin_init [Dbl.val 3, Dbl.nan, Dbl.val 1] (Dbl.val 10) = Except.ok mn ∧
        rcpp_cummax_init [Dbl.val 3, Dbl.nan, Dbl.val 1] (Dbl.val 10) = Except.ok mx ∧
        (∃ m, mn[0]? = some (Dbl.val 10 + m) ∧ mn[1]? = some (Dbl.val 10 + m)) ∧
        (∃ m, mx[0]? = some (Dbl.val 10 + m) ∧ mx[1]? = some (Dbl.val 10 + m))) ∧
    ([Dbl.nan, Dbl.val 1] ≠ [] ∧
      ∃ mn mx, rcpp_cummin_init [Dbl.nan, Dbl.val 1] (Dbl.val 10) = Except.ok mn ∧
        rcpp_cummax_init [Dbl.nan, Dbl.val 1] (Dbl.val 10) = Except.ok mx ∧
        ∀ i, i < 2 → mn[i]? = some Dbl.nan ∧ mx[i]? = some Dbl.nan) := by
  refine ⟨⟨by simp, ?_⟩, ⟨by simp, ?_⟩⟩
  · obtain ⟨mn, mx, h1, h2, -, -, ha, -⟩ :=
      nan_propagation Dbl.nan Dbl.not_nan_lt Dbl.not_lt_nan Dbl.add_nan
        [Dbl.val 3, Dbl.nan, Dbl.val 1] (Dbl.val 10) (by simp)
    exact ⟨mn, mx, h1, h2, ha 0 (by simp) (by simp)⟩
  · obtain ⟨mn, mx, h1, h2, -, -, -, hb⟩ :=
      nan_propagation Dbl.nan Dbl.not_nan_lt Dbl.not_lt_nan Dbl.add_nan
        [Dbl.nan, Dbl.val 1] (Dbl.val 10) (by simp)
    exact ⟨mn, mx, h1, h2, hb (by simp)⟩

/-- C17. The mean lies between the minimum and the maximum (exact arithmetic): on a
non-empty `x`, at every index `i < n`, `cummin[i] ≤ cummean[i] ≤ cummax[i]` for the three
single-statistic functions, and the same holds in row `i` of the batch matrix between
its columns `cum_min` (2), `cum_mean` (4) and `cum_max` (3). -/
theorem mean_between_min_max (x : List ℚ) (c : ℚ) (hx : x ≠ []) :
    (∃ mn me mx, rcpp_cummin_init x c = Except.ok mn ∧ rcpp_cummean_init x c = Except.ok me ∧
      rcpp_cummax_init x c = Except.ok mx ∧
      ∀ i, i < x.length → ∃ u v w, mn[i]? = some u ∧ me[i]? = some v ∧ mx[i]? = some w ∧
        u ≤ v ∧ v ≤ w) ∧
    (∃ m, rcpp_batch_cumstats x c = Except.ok m ∧
      ∀ i, i < x.length → ∃ u v w, (m.column 2)[i]? = some u ∧ (m.column 4)[i]? = some v ∧
        (m.column 3)[i]? = some w ∧ u ≤ v ∧ v ≤ w) := by
  obtain ⟨x0, xs, rfl⟩ := List.exists_cons_of_ne_nil hx
  obtain ⟨-, hmin⟩ := scanIdx_spec minStep (offsetOut c) x0 (x0 :: xs)
  obtain ⟨-, hmax⟩ := scanIdx_spec maxStep (offsetOut c) x0 (x0 :: xs)
  obtain ⟨-, hmean⟩ := scanIdx_spec sumStep (meanOut c) 0 (x0 :: xs)
  have key : ∀ i, i < (x0 :: xs).length → ∃ u v w,
      (scanIdx minStep (offsetOut c) 0 x0 (x0 :: xs))[i]? = some u ∧
      (scanIdx sumStep (meanOut c) 0 0 (x0 :: xs))[i]? = some v ∧
      (scanIdx maxStep (offsetOut c) 0 x0 (x0 :: xs))[i]? = some w ∧ u ≤ v ∧ v ≤ w :=
    fun i hi => ⟨_, _, _, hmin i hi, hmean i hi, hmax i hi, min_le_mean_le_max x0 xs c i hi⟩
  refine ⟨⟨_, _, _, cummin_eq x0 xs c, cummean_eq _ c, cummax_eq x0 xs c, key⟩, ?_⟩
  obtain ⟨m, hm, -, -, -, -, -, -, c2, c3, c4⟩ := batch_eq x0 xs c
  refine ⟨m, hm, ?_⟩
  rw [c2, c3, c4]
  exact key

/-- Witness of C17 at `x = [1, -2, 3]`, `c = 10`. -/
theorem mean_between_min_max_witness :
    ([1, -2, 3] : List ℚ) ≠ [] ∧
    (∃ mn me mx, rcpp_cummin_init ([1, -2, 3] : List ℚ) 10 = Except.ok mn ∧
      rcpp_cummean_init ([1, -2, 3] : List ℚ) 10 = Except.ok me ∧
      rcpp_cummax_init ([1, -2, 3] : List ℚ) 10 = Except.ok mx ∧
      ∀ i, i < ([1, -2, 3] : List ℚ).length → ∃ u v w, mn[i]? = some u ∧
        me[i]? = some v ∧ mx[i]? = some w ∧ u ≤ v ∧ v ≤ w) ∧
    (∃ m, rcpp_batch_cumstats ([1, -2, 3] : List ℚ) 10 = Except.ok m ∧
      ∀ i, i < ([1, -2, 3] : List ℚ).length → ∃ u v w, (m.column 2)[i]? = some u ∧
        (m.column 4)[i]? = some v ∧ (m.column 3)[i]? = some w ∧ u ≤ v ∧ v ≤ w) :=
  ⟨by simp, mean_between_min_max [1, -2, 3] 10 (by simp)⟩

/-- C18. The product column of the batch under the seed `0` (exact arithmetic): on a
non-empty `x`, the `cum_prod` column of `rcpp_batch_cumstats x 0` is the result of
`rcpp_cumprod_init x 0` and every entry of it is `0`; it differs from the result of
`rcpp_cumprod_init x 1` as soon as some running product of the `1 + x[j]` is not zero. -/
theorem batch_product_seed_zero (x : List ℚ) (hx : x ≠ []) :
    ∃ m, rcpp_batch_cumstats x 0 = Except.ok m ∧
      rcpp_cumprod_init x 0 = Except.ok (m.column 1) ∧
      m.column 1 = List.replicate x.length 0 ∧
      ∀ p, rcpp_cumprod_init x 1 = Except.ok p →
        (∃ i, i < x.length ∧ ((x.take (i + 1)).map (fun v => 1 + v)).prod ≠ 0) →
        m.column 1 ≠ p := by
  obtain ⟨x0, xs, rfl⟩ := List.exists_cons_of_ne_nil hx
  obtain ⟨m, hm, -, -, -, -, -, c1, -, -, -⟩ := batch_eq x0 xs (0 : ℚ)
  obtain ⟨hl0, hget0⟩ := scanIdx_spec prodStep (scaleOut (0 : ℚ)) 1 (x0 :: xs)
  obtain ⟨-, hget1⟩ := scanIdx_spec prodStep (scaleOut (1 : ℚ)) 1 (x0 :: xs)
  have hzero : m.column 1 = List.replicate (x0 :: xs).length 0 := by
    rw [c1]
    apply List.ext_getElem?
    intro i
    by_cases hi : i < (x0 :: xs).length
    · rw [hget0 i hi, List.getElem?_replicate, if_pos hi]
      simp [scaleOut]
    · rw [List.getElem?_eq_none (by rw [hl0]; omega),
        List.getElem?_eq_none (by rw [List.length_replicate]; omega)]
  refine ⟨m, hm, by rw [c1]; exact cumprod_eq _ 0, hzero, ?_⟩
  intro p hp ⟨i, hi, hne⟩ heq
  rw [cumprod_eq] at hp
  have hp1 : p[i]? = some (((x0 :: xs).take (i + 1)).map (fun v => 1 + v)).prod := by
    rw [← Except.ok.inj hp, hget1 i hi, foldIdx_prodStep]
    simp [scaleOut]
  rw [← heq, hzero, List.getElem?_replicate, if_pos hi] at hp1
  exact hne (Option.some.inj hp1).symm

/-- Witness of C18 at `x = [1, -2, 3]`. -/
theorem batch_product_seed_zero_witness :
    ([1, -2, 3] : List ℚ) ≠ [] ∧
    ∃ m, rcpp_batch_cumstats ([1, -2, 3] : List ℚ) 0 = Except.ok m ∧
      rcpp_cumprod_init ([1, -2, 3] : List ℚ) 0 = Except.ok (m.column 1) ∧
      m.column 1 = List.replicate ([1, -2, 3] : List ℚ).length 0 ∧
      ∀ p, rcpp_cumprod_init ([1, -2, 3] : List ℚ) 1 = Except.ok p →
        (∃ i, i < ([1, -2, 3] : List ℚ).length ∧
          ((([1, -2, 3] : List ℚ).take (i + 1)).map (fun v => 1 + v)).prod ≠ 0) →
        m.column 1 ≠ p :=
  ⟨by simp, batch_product_seed_zero [1, -2, 3] (by simp)⟩

/-- C19. Duality of the minimum and the maximum (exact arithmetic): on a non-empty `x`,
at every index `i < n`, `cummin(x, c)[i] = -(cummax(neg x, -c)[i])`, where `neg x` negates
every element of `x`. -/
theorem min_max_duality (x : List ℚ) (c : ℚ) (hx : x ≠ []) :
    ∃ mn mx, rcpp_cummin_init x c = Except.ok mn ∧
      rcpp_cummax_init (x.map (fun v => -v)) (-c) = Except.ok mx ∧
      mn.length = x.length ∧ mx.length = x.length ∧
      ∀ i, i < x.length → ∃ u w, mn[i]? = some u ∧ mx[i]? = some w ∧ u = -w := by
  obtain ⟨x0, xs, rfl⟩ := List.exists_cons_of_ne_nil hx
  obtain ⟨hl, hget⟩ := scanIdx_spec minStep (offsetOut c) x0 (x0 :: xs)
  obtain ⟨hl1, hget1⟩ := scanIdx_spec maxStep (offsetOut (-c)) (-x0)
    ((x0 :: xs).map (fun v => -v))
  have hlen : ((x0 :: xs).map (fun v => -v)).length = (x0 :: xs).length := List.length_map _ _
  refine ⟨_, _, cummin_eq x0 xs c, cummax_eq (-x0) (xs.map (fun v => -v)) (-c), hl,
    by rw [← hlen]; exact hl1, ?_⟩
  intro i hi
  refine ⟨_, _, hget i hi, hget1 i (by rw [hlen]; exact hi), ?_⟩
  rw [foldIdx_minStep_eq_neg, ← List.map_take]
  simp [offsetOut]
  ring

/-- Witness of C19 at `x = [1, -2, 3]`, `c = 10`. -/
theorem min_max_duality_witness :
    ([1, -2, 3] : List ℚ) ≠ [] ∧
    ∃ mn mx, rcpp_cummin_init ([1, -2, 3] : List ℚ) 10 = Except.ok mn ∧
      rcpp_cummax_init (([1, -2, 3] : List ℚ).map (fun v => -v)) (-10) = Except.ok mx ∧
      mn.length = ([1, -2, 3] : List ℚ).length ∧ mx.length = ([1, -2, 3] : List ℚ).length ∧
      ∀ i, i < ([1, -2, 3] : List ℚ).length →
        ∃ u w, mn[i]? = some u ∧ mx[i]? = some w ∧ u = -w :=
  ⟨by simp, min_max_duality [1, -2, 3] 10 (by simp)⟩

/-- C20. Total loss is absorbing in the growth-factor product (exact arithmetic): if
`x[k] = -1` then `rcpp_cumprod_init x c` is `0` at every index `i` with `k ≤ i < n`. -/
theorem product_total_loss (x : List ℚ) (c : ℚ) (k : Nat) (hk : x[k]? = some (-1)) :
    ∃ r, rcpp_cumprod_init x c = Except.ok r ∧ r.length = x.length ∧
      ∀ i, k ≤ i → i < x.length → r[i]? = some 0 := by
  obtain ⟨hl, hget⟩ := scanIdx_spec prodStep (scaleOut c) 1 x
  refine ⟨_, cumprod_eq x c, hl, ?_⟩
  intro i hki hi
  rw [hget i hi, foldIdx_prodStep, prod_one_add_eq_zero _ (mem_take_of_getElem? hki hk)]
  simp [scaleOut]

/-- Witness of C20 at `x = [1, -1, 3]`, `c = 10`, `k = 1`. -/
theorem product_total_loss_witness :
    ([1, -1, 3] : List ℚ)[1]? = some (-1 : ℚ) ∧
    ∃ r, rcpp_cumprod_init ([1, -1, 3] : List ℚ) 10 = Except.ok r ∧
      r.length = ([1, -1, 3] : List ℚ).length ∧
      ∀ i, 1 ≤ i → i < ([1, -1, 3] : List ℚ).length → r[i]? = some 0 :=
  ⟨by simp, product_total_loss [1, -1, 3] 10 1 (by simp)⟩

end CumulativeStats
